import Mathlib

/-!
# Tagged values of `sexp.h`

A shallow embedding of the value representation declared in `src/sexp.h`:
the tag constants, the tag predicates, the immediate constructors and
accessors, the heap type predicates, the fixnum arithmetic macros, and the
accessors of the environment, string, procedure and opcode records.

A `sexp` is a machine word. Words are natural numbers below `2 ^ w`, where
`w` is the width in bits of `sexp`, `sexp_uint_t` and `sexp_sint_t`
(`w = 64` on LP64). Values of type `sexp_sint_t` are integers in the
two's complement range of `w` bits; every arithmetic step on them is
reduced into that range, which is the wraparound of the host machine.
-/

namespace Sexp

/-! ## Tag constants (sexp.h lines 53-66) -/

def SEXP_FIXNUM_BITS : Nat := 2
def SEXP_IMMEDIATE_BITS : Nat := 3
def SEXP_EXTENDED_BITS : Nat := 4

def SEXP_FIXNUM_MASK : Nat := 3
def SEXP_IMMEDIATE_MASK : Nat := 7
def SEXP_EXTENDED_MASK : Nat := 15

def SEXP_POINTER_TAG : Nat := 0
def SEXP_FIXNUM_TAG : Nat := 1
def SEXP_LSYMBOL_TAG : Nat := 3
def SEXP_ISYMBOL_TAG : Nat := 7
def SEXP_CHAR_TAG : Nat := 6
def SEXP_EXTENDED_TAG : Nat := 14

/-! ## Machine words and casts -/

/-- The cast `(sexp) i` or `(sexp_uint_t) i` of an integer: its residue
modulo `2 ^ w`, as an unsigned word. -/
def to_sexp (w : Nat) (i : Int) : Nat :=
  (i % ((2 ^ w : Nat) : Int)).toNat

/-- The cast `(sexp_sint_t) x` of a word: its two's complement value. -/
def to_sint (w : Nat) (x : Nat) : Int :=
  if x % 2 ^ w < 2 ^ (w - 1) then ((x % 2 ^ w : Nat) : Int)
  else ((x % 2 ^ w : Nat) : Int) - ((2 ^ w : Nat) : Int)

/-- Reduction of an integer into the range of a signed type of `w` bits
(`sexp_sint_t`, or `int` at its own width): the result of a signed operation on
the host machine, which wraps around. -/
def sint_wrap (w : Nat) (i : Int) : Int :=
  to_sint w (to_sexp w i)

/-- The C operator `+` on `sexp_sint_t`. -/
def sint_add (w : Nat) (a b : Int) : Int := sint_wrap w (a + b)

/-- The C operator `-` on `sexp_sint_t`. -/
def sint_sub (w : Nat) (a b : Int) : Int := sint_wrap w (a - b)

/-- The C operator `*` on `sexp_sint_t`. -/
def sint_mul (w : Nat) (a b : Int) : Int := sint_wrap w (a * b)

/-- The C operator `<<` on `sexp_sint_t`. -/
def sint_shl (w : Nat) (a : Int) (k : Nat) : Int := sint_wrap w (a * 2 ^ k)

/-- The C operator `>>` on `sexp_sint_t`: an arithmetic shift, which rounds
toward minus infinity. -/
def sint_shr (a : Int) (k : Nat) : Int := a >>> k

/-- The C operator `/` on `sexp_sint_t`: the quotient truncated toward zero. -/
def sint_div (w : Nat) (a b : Int) : Int := sint_wrap w (Int.tdiv a b)

/-- The C operator `%` on `sexp_sint_t`: the remainder with the sign of the
dividend. -/
def sint_mod (w : Nat) (a b : Int) : Int := sint_wrap w (Int.tmod a b)

/-! ## Tag predicates (sexp.h lines 166-169) -/

/-- The macro `sexp_pointerp(x)`. -/
def sexp_pointerp (x : Nat) : Bool :=
  (x &&& SEXP_FIXNUM_MASK) == SEXP_POINTER_TAG

/-- The macro `sexp_integerp(x)`. -/
def sexp_integerp (x : Nat) : Bool :=
  (x &&& SEXP_FIXNUM_MASK) == SEXP_FIXNUM_TAG

/-- The macro `sexp_isymbolp(x)`. -/
def sexp_isymbolp (x : Nat) : Bool :=
  (x &&& SEXP_IMMEDIATE_MASK) == SEXP_ISYMBOL_TAG

/-- The macro `sexp_charp(x)`. -/
def sexp_charp (x : Nat) : Bool :=
  (x &&& SEXP_EXTENDED_MASK) == SEXP_CHAR_TAG

/-- The row `011: symbol` of the tagging comment (sexp.h lines 44-51), written
with the mask and the tag constant of the header. The header declares no
predicate for this row. -/
def tag_lsymbol_test (x : Nat) : Bool :=
  (x &&& SEXP_IMMEDIATE_MASK) == SEXP_LSYMBOL_TAG

/-- The row `1110: other immediate object` of the tagging comment, written
with the mask and the tag constant of the header. The header declares no
predicate for this row. -/
def tag_extended_test (x : Nat) : Bool :=
  (x &&& SEXP_EXTENDED_MASK) == SEXP_EXTENDED_TAG

/-- The six tests of the tagging comment, in the order of the comment:
pointer, fixnum, symbol, immediate symbol, char, other immediate. -/
def tag_tests (x : Nat) : List Bool :=
  [sexp_pointerp x, sexp_integerp x, tag_lsymbol_test x, sexp_isymbolp x,
   sexp_charp x, tag_extended_test x]

/-! ## Immediate constructors and accessors (sexp.h lines 155-163, 197-200) -/

/-- The width in bits of the C type `int`, in the LP64 and ILP32 data models. -/
def C_INT_BITS : Nat := 32

/-- The macro `SEXP_MAKE_IMMEDIATE(n)`,
`((sexp) ((n<<SEXP_EXTENDED_BITS) + SEXP_EXTENDED_TAG))`. Unlike
`sexp_make_integer` and `sexp_make_character`, the macro does not cast `n` to
`sexp_sint_t`: the argument is an `int`, as in each of the eight uses of the
header, the shift and the sum are computed at the width of `int`, and only the
result is converted to a word. -/
def SEXP_MAKE_IMMEDIATE (w : Nat) (n : Int) : Nat :=
  to_sexp w
    (sint_add C_INT_BITS (sint_shl C_INT_BITS (sint_wrap C_INT_BITS n) SEXP_EXTENDED_BITS)
      SEXP_EXTENDED_TAG)

def SEXP_NULL (w : Nat) : Nat := SEXP_MAKE_IMMEDIATE w 0
def SEXP_FALSE (w : Nat) : Nat := SEXP_MAKE_IMMEDIATE w 1
def SEXP_TRUE (w : Nat) : Nat := SEXP_MAKE_IMMEDIATE w 2
def SEXP_EOF (w : Nat) : Nat := SEXP_MAKE_IMMEDIATE w 3
def SEXP_UNDEF (w : Nat) : Nat := SEXP_MAKE_IMMEDIATE w 4
def SEXP_ERROR (w : Nat) : Nat := SEXP_MAKE_IMMEDIATE w 5
def SEXP_CLOSE (w : Nat) : Nat := SEXP_MAKE_IMMEDIATE w 6
def SEXP_RAWDOT (w : Nat) : Nat := SEXP_MAKE_IMMEDIATE w 7

/-- The macro `sexp_make_integer(n)`,
`((sexp) (((sexp_sint_t) n<<SEXP_FIXNUM_BITS) + SEXP_FIXNUM_TAG))`. -/
def sexp_make_integer (w : Nat) (n : Int) : Nat :=
  to_sexp w (sint_add w (sint_shl w (sint_wrap w n) SEXP_FIXNUM_BITS) SEXP_FIXNUM_TAG)

/-- The macro `sexp_unbox_integer(n)`, `((sexp_sint_t) n>>SEXP_FIXNUM_BITS)`. -/
def sexp_unbox_integer (w : Nat) (x : Nat) : Int :=
  sint_shr (to_sint w x) SEXP_FIXNUM_BITS

/-- The macro `sexp_make_character(n)`,
`((sexp) (((sexp_sint_t) n<<SEXP_EXTENDED_BITS) + SEXP_CHAR_TAG))`. -/
def sexp_make_character (w : Nat) (n : Int) : Nat :=
  to_sexp w (sint_add w (sint_shl w (sint_wrap w n) SEXP_EXTENDED_BITS) SEXP_CHAR_TAG)

/-- The macro `sexp_unbox_character(n)`,
`((sexp_sint_t) n>>SEXP_EXTENDED_BITS)`. -/
def sexp_unbox_character (w : Nat) (x : Nat) : Int :=
  sint_shr (to_sint w x) SEXP_EXTENDED_BITS

/-! ## Fixnum arithmetic (sexp.h lines 284-288) -/

/-- The macro `sexp_add(a, b)`,
`((sexp)(((sexp_sint_t)a)+((sexp_sint_t)b)-SEXP_FIXNUM_TAG))`. -/
def sexp_add (w : Nat) (a b : Nat) : Nat :=
  to_sexp w (sint_sub w (sint_add w (to_sint w a) (to_sint w b)) SEXP_FIXNUM_TAG)

/-- The macro `sexp_sub(a, b)`,
`((sexp)(((sexp_sint_t)a)-((sexp_sint_t)b)+SEXP_FIXNUM_TAG))`. -/
def sexp_sub (w : Nat) (a b : Nat) : Nat :=
  to_sexp w (sint_add w (sint_sub w (to_sint w a) (to_sint w b)) SEXP_FIXNUM_TAG)

/-- The macro `sexp_mul(a, b)`,
`((sexp)((((((sexp_sint_t)a)-SEXP_FIXNUM_TAG)*(((sexp_sint_t)b)>>SEXP_FIXNUM_BITS))+SEXP_FIXNUM_TAG)))`. -/
def sexp_mul (w : Nat) (a b : Nat) : Nat :=
  to_sexp w
    (sint_add w
      (sint_mul w (sint_sub w (to_sint w a) SEXP_FIXNUM_TAG)
        (sint_shr (to_sint w b) SEXP_FIXNUM_BITS))
      SEXP_FIXNUM_TAG)

/-! ### Layout of `struct sexp_struct` (sexp.h lines 91-150)

Sizes and alignments are in bytes, as pairs `(size, alignment)`, for the LP64
data model with natural alignment. -/

/-- Round an offset up to the next multiple of an alignment. -/
def align_up (off al : Nat) : Nat := (off + al - 1) / al * al

/-- Size and alignment of a C struct with the given fields, laid out in order. -/
def struct_layout (fields : List (Nat × Nat)) : Nat × Nat :=
  let al := (fields.map Prod.snd).foldl max 1
  (align_up (fields.foldl (fun off f => align_up off f.2 + f.1) 0) al, al)

/-- Size and alignment of a C union with the given members. -/
def union_layout (members : List (Nat × Nat)) : Nat × Nat :=
  let al := (members.map Prod.snd).foldl max 1
  (align_up ((members.map Prod.fst).foldl max 0) al, al)

def c_char : Nat × Nat := (1, 1)
def c_short : Nat × Nat := (2, 2)
def c_long : Nat × Nat := (8, 8)
def c_double : Nat × Nat := (8, 8)
def c_pointer : Nat × Nat := (8, 8)

/-- The union `value` of `struct sexp_struct`, member by member. The flexible
array `data[]` of `bytecode` has size 0. -/
def value_layout : Nat × Nat :=
  union_layout
    [ c_double,
      struct_layout [c_pointer, c_pointer],
      struct_layout [c_long, c_pointer],
      struct_layout [c_long, c_pointer],
      struct_layout [c_long, c_pointer],
      struct_layout [c_pointer, c_pointer, c_long],
      struct_layout [c_pointer, c_pointer, c_pointer, c_pointer, c_pointer],
      struct_layout [c_char, c_pointer, c_pointer],
      struct_layout [c_long, (0, 1)],
      struct_layout [c_char, c_short, c_pointer, c_pointer],
      struct_layout [c_pointer, c_pointer],
      struct_layout [c_char, c_char, c_char, c_char, c_char, c_char, c_char,
        c_pointer, c_pointer, c_pointer],
      struct_layout [c_char, c_pointer] ]

/-- The value of `sizeof(struct sexp_struct)`: a `sexp_tag_t` (a `char`)
followed by the union `value`. -/
def sizeof_sexp_struct : Nat := (struct_layout [c_char, value_layout]).1

/-- Pointer arithmetic `p + k` on a `sexp`, a pointer to `struct sexp_struct`
whose size is `sz`: the address moves by `k` records. -/
def sexp_ptr_add (w sz : Nat) (p : Nat) (k : Int) : Nat :=
  to_sexp w ((p : Int) + k * (sz : Int))

/-- The macro `sexp_div(a, b)`,
`((sexp)(((((sexp_sint_t)a)>>SEXP_FIXNUM_BITS)/(((sexp_sint_t)b)>>SEXP_FIXNUM_BITS))<<SEXP_FIXNUM_BITS)+SEXP_FIXNUM_TAG)`.
The cast `(sexp)` applies to the shifted quotient only, and binds tighter than
the `+` that follows it: the sum is pointer arithmetic on a `sexp`, for a
record of `sz` bytes. A zero divisor has no result. -/
def sexp_div (w sz : Nat) (a b : Nat) : Option Nat :=
  if sint_shr (to_sint w b) SEXP_FIXNUM_BITS = 0 then none
  else
    some (sexp_ptr_add w sz
      (to_sexp w
        (sint_shl w
          (sint_div w (sint_shr (to_sint w a) SEXP_FIXNUM_BITS)
            (sint_shr (to_sint w b) SEXP_FIXNUM_BITS))
          SEXP_FIXNUM_BITS))
      SEXP_FIXNUM_TAG)

/-- The macro `sexp_mod(a, b)`,
`((sexp)(((((sexp_sint_t)a)>>SEXP_FIXNUM_BITS)%(((sexp_sint_t)b)>>SEXP_FIXNUM_BITS))<<SEXP_FIXNUM_BITS)+SEXP_FIXNUM_TAG)`.
Parenthesised as `sexp_div` is: the sum is pointer arithmetic on a `sexp`. A
zero divisor has no result. -/
def sexp_mod (w sz : Nat) (a b : Nat) : Option Nat :=
  if sint_shr (to_sint w b) SEXP_FIXNUM_BITS = 0 then none
  else
    some (sexp_ptr_add w sz
      (to_sexp w
        (sint_shl w
          (sint_mod w (sint_shr (to_sint w a) SEXP_FIXNUM_BITS)
            (sint_shr (to_sint w b) SEXP_FIXNUM_BITS))
          SEXP_FIXNUM_BITS))
      SEXP_FIXNUM_TAG)

/-! ## Heap records and type predicates (sexp.h lines 68-89, 172-189) -/

def SEXP_OBJECT : Nat := 0
def SEXP_FIXNUM : Nat := 1
def SEXP_CHAR : Nat := 2
def SEXP_BOOLEAN : Nat := 3
def SEXP_SYMBOL : Nat := 5
def SEXP_BIGNUM : Nat := 9
def SEXP_ENV : Nat := 15
/-- The heap, as far as the type predicates read it: the `tag` field of the
record stored at an address, and `none` at an address that holds no record. -/
structure Heap where
  tag : Nat → Option Nat

/-- The result of evaluating a predicate against a heap: its truth value,
`none` when it dereferenced an address that holds no record, and the
addresses it dereferenced, in order. -/
abbrev Checked := Option Bool × List Nat

/-- The macro `SEXP_CHECK_TAG(x,t)`, `(sexp_pointerp(x) && (x)->tag == (t))`.
The operator `&&` evaluates its right operand only when the left one holds. -/
def SEXP_CHECK_TAG (h : Heap) (x t : Nat) : Checked :=
  if sexp_pointerp x then ((h.tag x).map (fun v => v == t), [x])
  else (some false, [])

def sexp_lsymbolp (h : Heap) (x : Nat) : Checked := SEXP_CHECK_TAG h x SEXP_SYMBOL
def sexp_envp (h : Heap) (x : Nat) : Checked := SEXP_CHECK_TAG h x SEXP_ENV
/-- The macro `sexp_symbolp(x)`, `(sexp_isymbolp(x) || sexp_lsymbolp(x))`. The
operator `||` evaluates its right operand only when the left one fails. -/
def sexp_symbolp (h : Heap) (x : Nat) : Checked :=
  if sexp_isymbolp x then (some true, []) else sexp_lsymbolp h x

/-- A heap with one record: a long symbol at the address 4096. -/
def heap_one_symbol : Heap :=
  ⟨fun a => if a = 4096 then some SEXP_SYMBOL else none⟩

/-- The heap without records. -/
def heap_empty : Heap := ⟨fun _ => none⟩

/-! ## Singleton tests and the dot symbol (sexp.h lines 165, 170, 191-195) -/

/-- The macro `sexp_nullp(x)`, `((x) == SEXP_NULL)`. -/
def sexp_nullp (w : Nat) (x : Nat) : Bool := x == SEXP_NULL w

/-- The macro `sexp_booleanp(x)`, `(((x) == SEXP_TRUE) || ((x) == SEXP_FALSE))`. -/
def sexp_booleanp (w : Nat) (x : Nat) : Bool := (x == SEXP_TRUE w) || (x == SEXP_FALSE w)

/-- The macro `SEXP_DOTP(x)` under `USE_HUFF_SYMS`,
`(((sexp_uint_t)(x))==((0x5D00<<SEXP_IMMEDIATE_BITS)+SEXP_ISYMBOL_TAG))`. The
right operand is an `int` constant, converted to `sexp_uint_t` for the
comparison. -/
def SEXP_DOTP (w : Nat) (x : Nat) : Bool :=
  x == to_sexp w ((0x5D00 : Int) * 2 ^ SEXP_IMMEDIATE_BITS + SEXP_ISYMBOL_TAG)

/-! ## Record accessors (sexp.h lines 107-110, 123-135, 140-144, 210-220, 238-241, 260) -/

/-- The C operator `&` on `sexp_sint_t`: the bitwise conjunction of the two's
complement representations. -/
def sint_and (w : Nat) (a b : Int) : Int := to_sint w (to_sexp w a &&& to_sexp w b)

/-- The conversion of a `sexp_sint_t` to a C `char`: the low eight bits, read
as a signed byte when `char` is signed on the platform and as an unsigned one
otherwise. -/
def to_char (char_signed : Bool) (i : Int) : Int :=
  if char_signed then (if i % 256 < 128 then i % 256 else i % 256 - 256) else i % 256

/-- The member `env` of the union `value`: `char flags; sexp parent, bindings;`. -/
structure sexp_env where
  flags : Int
  parent : Nat
  bindings : Nat
  deriving DecidableEq

/-- The macro `sexp_env_parent(x)`, `((x)->value.env.parent)`. -/
def sexp_env_parent (e : sexp_env) : Nat := e.parent

/-- The macro `sexp_env_global_p(x)`, `(! sexp_env_parent(x))`: the operator `!`
on a pointer yields 1 for the null pointer and 0 for every other word. -/
def sexp_env_global_p (e : sexp_env) : Bool := sexp_env_parent e == 0

/-- The member `string` of the union `value`, `sexp_uint_t length; char *data;`,
with the memory that `data` points into: the byte, as a value of type `char`,
at each offset from the pointer. The macros index it without a bounds check,
so the offsets outside the buffer of `length` bytes belong to it as well. -/
structure sexp_string where
  length : Nat
  data : Int → Int

/-- The macro `sexp_string_length(x)`, `((x)->value.string.length)`. -/
def sexp_string_length (s : sexp_string) : Nat := s.length

/-- The macro `sexp_string_data(x)`, `((x)->value.string.data)`. -/
def sexp_string_data (s : sexp_string) : Int → Int := s.data

/-- The macro `sexp_string_ref(x, i)`,
`(sexp_make_character(sexp_string_data(x)[sexp_unbox_integer(i)]))`. The index
is not checked against the length. -/
def sexp_string_ref (w : Nat) (s : sexp_string) (i : Nat) : Nat :=
  sexp_make_character w (sexp_string_data s (sexp_unbox_integer w i))

/-- The macro `sexp_string_set(x, i, v)`,
`(sexp_string_data(x)[sexp_unbox_integer(i)] = sexp_unbox_character(v))`: the
record after the assignment, which converts the unboxed character to `char`.
The index is not checked against the length. -/
def sexp_string_set (w : Nat) (char_signed : Bool) (s : sexp_string) (i v : Nat) :
    sexp_string :=
  { s with
    data := Function.update (sexp_string_data s) (sexp_unbox_integer w i)
      (to_char char_signed (sexp_unbox_character w v)) }

/-- The member `procedure` of the union `value`:
`char flags; unsigned short num_args; sexp bc, vars;`. -/
structure sexp_procedure where
  flags : Int
  num_args : Nat
  bc : Nat
  vars : Nat
  deriving DecidableEq

/-- The macro `sexp_procedure_flags(x)`, `((x)->value.procedure.flags)`. -/
def sexp_procedure_flags (p : sexp_procedure) : Int := p.flags

/-- The macro `sexp_procedure_variadic_p(x)`,
`(sexp_unbox_integer(sexp_procedure_flags(x)) & 1)`. The cast `(sexp_sint_t)`
inside `sexp_unbox_integer` applies to the `char` value of the flags field:
the value is reduced to a word and read as a `sexp_sint_t`. -/
def sexp_procedure_variadic_p (w : Nat) (p : sexp_procedure) : Int :=
  sint_and w (sexp_unbox_integer w (to_sexp w (sexp_procedure_flags p))) 1

/-- The member `opcode` of the union `value`:
`unsigned char op_class, code, num_args, flags, arg1_type, arg2_type, inverse;
char *name; sexp data, proc;`. -/
structure sexp_opcode where
  op_class : Nat
  code : Nat
  num_args : Nat
  flags : Nat
  arg1_type : Nat
  arg2_type : Nat
  inverse : Nat
  name : Nat
  data : Nat
  proc : Nat
  deriving DecidableEq

/-- The macro `sexp_opcode_flags(x)`, `((x)->value.opcode.flags)`. -/
def sexp_opcode_flags (o : sexp_opcode) : Nat := o.flags

/-- The macro `sexp_opcode_variadic_p(x)`, `(sexp_opcode_flags(x) & 1)`. -/
def sexp_opcode_variadic_p (o : sexp_opcode) : Nat := sexp_opcode_flags o &&& 1

/-- A string record of 2^30 + 1 zero bytes: its last index, 2^30, is beyond
the fixnum range of a 32-bit word. -/
def string_long : sexp_string := ⟨1073741825, fun _ => 0⟩

/-- The string record of the three bytes `abc`, with zero bytes around them. -/
def string_abc : sexp_string :=
  ⟨3, fun j => if j = 0 then 97 else if j = 1 then 98 else if j = 2 then 99 else 0⟩

end Sexp

/-! ## Lemmas on words and casts -/

namespace Sexp

theorem and_three (x : Nat) : x &&& 3 = x % 4 :=
  Nat.and_pow_two_sub_one_eq_mod x 2

theorem and_seven (x : Nat) : x &&& 7 = x % 8 :=
  Nat.and_pow_two_sub_one_eq_mod x 3

theorem and_fifteen (x : Nat) : x &&& 15 = x % 16 :=
  Nat.and_pow_two_sub_one_eq_mod x 4

theorem sexp_integerp_iff (x : Nat) : sexp_integerp x = true ↔ x % 4 = 1 := by
  simp [sexp_integerp, SEXP_FIXNUM_MASK, SEXP_FIXNUM_TAG, and_three]

theorem sexp_pointerp_iff (x : Nat) : sexp_pointerp x = true ↔ x % 4 = 0 := by
  simp [sexp_pointerp, SEXP_FIXNUM_MASK, SEXP_POINTER_TAG, and_three]

theorem sexp_isymbolp_iff (x : Nat) : sexp_isymbolp x = true ↔ x % 8 = 7 := by
  simp [sexp_isymbolp, SEXP_IMMEDIATE_MASK, SEXP_ISYMBOL_TAG, and_seven]

theorem sexp_charp_iff (x : Nat) : sexp_charp x = true ↔ x % 16 = 6 := by
  simp [sexp_charp, SEXP_EXTENDED_MASK, SEXP_CHAR_TAG, and_fifteen]

theorem tag_lsymbol_test_iff (x : Nat) : tag_lsymbol_test x = true ↔ x % 8 = 3 := by
  simp [tag_lsymbol_test, SEXP_IMMEDIATE_MASK, SEXP_LSYMBOL_TAG, and_seven]

theorem tag_extended_test_iff (x : Nat) : tag_extended_test x = true ↔ x % 16 = 14 := by
  simp [tag_extended_test, SEXP_EXTENDED_MASK, SEXP_EXTENDED_TAG, and_fifteen]

theorem two_pow_pos_int (w : Nat) : (0 : Int) < ((2 ^ w : Nat) : Int) := by
  have : 0 < 2 ^ w := Nat.pos_pow_of_pos w (by decide)
  exact_mod_cast this

/-- For a width of at least three bits, the modulus is eight times the bound of
the fixnum range and the sign bound is four times it. -/
theorem two_pow_split (w : Nat) (hw : 3 ≤ w) :
    2 ^ w = 8 * 2 ^ (w - 3) ∧ 2 ^ (w - 1) = 4 * 2 ^ (w - 3) ∧ 0 < 2 ^ (w - 3) := by
  obtain ⟨k, rfl⟩ : ∃ k, w = k + 3 := ⟨w - 3, by omega⟩
  have h1 : k + 3 - 3 = k := by omega
  have h2 : k + 3 - 1 = k + 2 := by omega
  rw [h1, h2, pow_add, pow_add]
  refine ⟨by ring, by ring, Nat.pos_pow_of_pos k (by decide)⟩

theorem sixteen_dvd_two_pow (w : Nat) (hw : 4 ≤ w) : 16 ∣ 2 ^ w := by
  obtain ⟨k, rfl⟩ : ∃ k, w = 4 + k := ⟨w - 4, by omega⟩
  exact ⟨2 ^ k, by rw [pow_add]; norm_num⟩

theorem to_sexp_cast (w : Nat) (i : Int) :
    ((to_sexp w i : Nat) : Int) = i % ((2 ^ w : Nat) : Int) := by
  unfold to_sexp
  exact Int.toNat_of_nonneg (Int.emod_nonneg _ (ne_of_gt (two_pow_pos_int w)))

theorem to_sexp_lt (w : Nat) (i : Int) : to_sexp w i < 2 ^ w := by
  have h := Int.emod_lt_of_pos i (two_pow_pos_int w)
  rw [← to_sexp_cast] at h
  exact_mod_cast h

theorem to_sexp_congr (w : Nat) {i j : Int}
    (h : i ≡ j [ZMOD ((2 ^ w : Nat) : Int)]) : to_sexp w i = to_sexp w j := by
  unfold to_sexp
  rw [h]

theorem to_sexp_modEq (w : Nat) (i : Int) :
    ((to_sexp w i : Nat) : Int) ≡ i [ZMOD ((2 ^ w : Nat) : Int)] := by
  rw [to_sexp_cast]
  exact Int.mod_modEq i _

theorem to_sint_modEq (w : Nat) (x : Nat) :
    to_sint w x ≡ (x : Int) [ZMOD ((2 ^ w : Nat) : Int)] := by
  have h0 : (((x % 2 ^ w : Nat)) : Int) ≡ (x : Int) [ZMOD ((2 ^ w : Nat) : Int)] := by
    rw [Int.natCast_mod]
    exact Int.mod_modEq _ _
  unfold to_sint
  split
  · exact h0
  · have h1 : (((x % 2 ^ w : Nat)) : Int) - ((2 ^ w : Nat) : Int)
        ≡ ((x % 2 ^ w : Nat) : Int) [ZMOD ((2 ^ w : Nat) : Int)] := by
      rw [Int.modEq_iff_dvd]
      exact ⟨1, by ring⟩
    exact h1.trans h0

theorem sint_wrap_modEq (w : Nat) (i : Int) :
    sint_wrap w i ≡ i [ZMOD ((2 ^ w : Nat) : Int)] :=
  (to_sint_modEq w _).trans (to_sexp_modEq w i)

theorem to_sexp_of_lt (w : Nat) (x : Nat) (hx : x < 2 ^ w) : to_sexp w (x : Int) = x := by
  unfold to_sexp
  rw [← Int.natCast_mod, Int.toNat_ofNat, Nat.mod_eq_of_lt hx]

theorem to_sexp_to_sint (w : Nat) (x : Nat) : to_sexp w (to_sint w x) = x % 2 ^ w := by
  rw [to_sexp_congr w (to_sint_modEq w x)]
  unfold to_sexp
  rw [← Int.natCast_mod, Int.toNat_ofNat]

/-- The two's complement value of a word lies in the signed range. -/
theorem to_sint_range (w : Nat) (hw : 1 ≤ w) (x : Nat) :
    -((2 ^ (w - 1) : Nat) : Int) ≤ to_sint w x ∧ to_sint w x < ((2 ^ (w - 1) : Nat) : Int) := by
  obtain ⟨k, rfl⟩ : ∃ k, w = k + 1 := ⟨w - 1, by omega⟩
  have h1 : k + 1 - 1 = k := by omega
  have h2 : 2 ^ (k + 1) = 2 * 2 ^ k := by rw [pow_succ]; ring
  have h3 : x % 2 ^ (k + 1) < 2 ^ (k + 1) := Nat.mod_lt _ (Nat.pos_pow_of_pos _ (by decide))
  unfold to_sint
  rw [h1]
  generalize x % 2 ^ (k + 1) = r at h3 ⊢
  rw [h2] at h3 ⊢
  generalize 2 ^ k = P at h3 ⊢
  split <;> push_cast <;> omega

/-- An integer in the signed range is the two's complement value of the word it
casts to. -/
theorem sint_wrap_of_range (w : Nat) (hw : 1 ≤ w) (i : Int)
    (hlo : -((2 ^ (w - 1) : Nat) : Int) ≤ i) (hhi : i < ((2 ^ (w - 1) : Nat) : Int)) :
    sint_wrap w i = i := by
  obtain ⟨k, rfl⟩ : ∃ k, w = k + 1 := ⟨w - 1, by omega⟩
  have h1 : k + 1 - 1 = k := by omega
  have h2 : 2 ^ (k + 1) = 2 * 2 ^ k := by rw [pow_succ]; ring
  have hr := to_sint_range (k + 1) hw (to_sexp (k + 1) i)
  have hm := sint_wrap_modEq (k + 1) i
  unfold sint_wrap at hm ⊢
  rw [h1] at hlo hhi hr
  obtain ⟨c, hc⟩ := Int.modEq_iff_dvd.mp hm
  rw [h2] at hc
  have hP : (0 : Int) < ((2 ^ k : Nat) : Int) := two_pow_pos_int k
  generalize to_sint (k + 1) (to_sexp (k + 1) i) = s at hr hc ⊢
  push_cast at hlo hhi hr hP hc
  generalize (2 : Int) ^ k = P at hlo hhi hr hP hc
  have hc0 : c = 0 := by
    by_contra hne
    rcases lt_or_gt_of_ne hne with hneg | hpos
    · have : c * P ≤ -1 * P := Int.mul_le_mul_of_nonneg_right (by omega) (le_of_lt hP)
      nlinarith
    · have : 1 * P ≤ c * P := Int.mul_le_mul_of_nonneg_right (by omega) (le_of_lt hP)
      nlinarith
  subst hc0
  omega

end Sexp

/-! ## The constructors as residues -/

namespace Sexp

theorem to_sexp_mod_sixteen (w : Nat) (hw : 4 ≤ w) (i : Int) :
    to_sexp w i % 16 = (i % 16).toNat := by
  have hd : (16 : Int) ∣ ((2 ^ w : Nat) : Int) := by
    exact_mod_cast sixteen_dvd_two_pow w hw
  have h : ((to_sexp w i % 16 : Nat) : Int) = i % 16 := by
    rw [Int.natCast_mod, to_sexp_cast]
    exact Int.emod_emod_of_dvd i hd
  omega

theorem to_sexp_mod_four (w : Nat) (hw : 2 ≤ w) (i : Int) :
    to_sexp w i % 4 = (i % 4).toNat := by
  have hd : (4 : Int) ∣ ((2 ^ w : Nat) : Int) := by
    obtain ⟨k, rfl⟩ : ∃ k, w = 2 + k := ⟨w - 2, by omega⟩
    exact ⟨((2 ^ k : Nat) : Int), by rw [pow_add]; push_cast; norm_num⟩
  have h : ((to_sexp w i % 4 : Nat) : Int) = i % 4 := by
    rw [Int.natCast_mod, to_sexp_cast]
    exact Int.emod_emod_of_dvd i hd
  omega

/-- A shift and a tag added in `sexp_sint_t`, cast to a word: the residue of
`n * 2 ^ k + t`. -/
theorem to_sexp_shl_add (w : Nat) (n : Int) (k : Nat) (t : Int) :
    to_sexp w (sint_add w (sint_shl w (sint_wrap w n) k) t) = to_sexp w (n * 2 ^ k + t) := by
  apply to_sexp_congr
  unfold sint_add sint_shl
  exact (sint_wrap_modEq w _).trans
    (((sint_wrap_modEq w _).trans ((sint_wrap_modEq w n).mul_right _)).add_right _)

theorem sexp_make_integer_eq (w : Nat) (n : Int) :
    sexp_make_integer w n = to_sexp w (n * 4 + 1) := by
  unfold sexp_make_integer
  rw [to_sexp_shl_add]
  rfl

theorem sexp_make_character_eq (w : Nat) (n : Int) :
    sexp_make_character w n = to_sexp w (n * 16 + 6) := by
  unfold sexp_make_character
  rw [to_sexp_shl_add]
  rfl

/-- A shift and a tag added in a signed type of `w` bits: `n * 2 ^ k + t` up
to a multiple of `2 ^ w`. -/
theorem sint_shl_add_modEq (w : Nat) (n : Int) (k : Nat) (t : Int) :
    sint_add w (sint_shl w (sint_wrap w n) k) t ≡ n * 2 ^ k + t
      [ZMOD ((2 ^ w : Nat) : Int)] := by
  unfold sint_add sint_shl
  exact (sint_wrap_modEq w _).trans
    (((sint_wrap_modEq w _).trans ((sint_wrap_modEq w n).mul_right _)).add_right _)

/-- An integer in the range of `int` is kept by the operations on `int`. -/
theorem int_wrap_of_range (i : Int) (h0 : -2147483648 ≤ i) (h1 : i < 2147483648) :
    sint_wrap C_INT_BITS i = i := by
  have e : ((2 ^ (C_INT_BITS - 1) : Nat) : Int) = 2147483648 := by decide
  exact sint_wrap_of_range C_INT_BITS (by decide) i (by rw [e]; exact h0) (by rw [e]; exact h1)

/-- A selector in `[0, 2 ^ 27)` is shifted and tagged in `int` without
overflow. -/
theorem SEXP_MAKE_IMMEDIATE_eq (w : Nat) (n : Int) (h0 : 0 ≤ n) (h1 : n < (2 : Int) ^ 27) :
    SEXP_MAKE_IMMEDIATE w n = to_sexp w (n * 16 + 14) := by
  have e27 : (2 : Int) ^ 27 = 134217728 := by norm_num
  rw [e27] at h1
  have e4 : (2 : Int) ^ SEXP_EXTENDED_BITS = 16 := by decide
  have et : ((SEXP_EXTENDED_TAG : Nat) : Int) = 14 := by decide
  unfold SEXP_MAKE_IMMEDIATE sint_add sint_shl
  rw [int_wrap_of_range n (by omega) (by omega), e4, et,
    int_wrap_of_range (n * 16) (by omega) (by omega),
    int_wrap_of_range (n * 16 + 14) (by omega) (by omega)]

theorem sexp_make_integer_mod (w : Nat) (hw : 4 ≤ w) (n : Int) :
    sexp_make_integer w n % 16 = 1 ∨ sexp_make_integer w n % 16 = 5 ∨
      sexp_make_integer w n % 16 = 9 ∨ sexp_make_integer w n % 16 = 13 := by
  rw [sexp_make_integer_eq, to_sexp_mod_sixteen w hw]
  omega

theorem sexp_make_character_mod (w : Nat) (hw : 4 ≤ w) (n : Int) :
    sexp_make_character w n % 16 = 6 := by
  rw [sexp_make_character_eq, to_sexp_mod_sixteen w hw]
  omega

theorem SEXP_MAKE_IMMEDIATE_mod (w : Nat) (hw : 4 ≤ w) (n : Int) :
    SEXP_MAKE_IMMEDIATE w n % 16 = 14 := by
  have hd : (16 : Int) ∣ ((2 ^ C_INT_BITS : Nat) : Int) := by
    exact_mod_cast sixteen_dvd_two_pow C_INT_BITS (by decide)
  have h1 := (sint_shl_add_modEq C_INT_BITS n SEXP_EXTENDED_BITS SEXP_EXTENDED_TAG).of_dvd hd
  have h2 : sint_add C_INT_BITS (sint_shl C_INT_BITS (sint_wrap C_INT_BITS n) SEXP_EXTENDED_BITS)
      SEXP_EXTENDED_TAG % 16 = (n * 2 ^ SEXP_EXTENDED_BITS + SEXP_EXTENDED_TAG) % 16 := h1
  have e4 : (2 : Int) ^ SEXP_EXTENDED_BITS = 16 := by decide
  have et : ((SEXP_EXTENDED_TAG : Nat) : Int) = 14 := by decide
  unfold SEXP_MAKE_IMMEDIATE
  rw [to_sexp_mod_sixteen w hw, h2, e4, et]
  omega

/-- The arithmetic shift by two is the quotient by four rounded down. -/
theorem sint_shr_two (a : Int) : sint_shr a SEXP_FIXNUM_BITS = a / 4 := by
  unfold sint_shr SEXP_FIXNUM_BITS
  rw [Int.shiftRight_eq_div_pow]
  rfl

/-- An integer in the fixnum range, boxed: `4 * n + 1` lies in the signed range. -/
theorem fixnum_in_range (w : Nat) (hw : 3 ≤ w) (n : Int)
    (hlo : -(2 : Int) ^ (w - 3) ≤ n) (hhi : n < (2 : Int) ^ (w - 3)) :
    -((2 ^ (w - 1) : Nat) : Int) ≤ n * 4 + 1 ∧ n * 4 + 1 < ((2 ^ (w - 1) : Nat) : Int) := by
  obtain ⟨-, h2, -⟩ := two_pow_split w hw
  rw [h2]
  push_cast
  omega

/-- Unboxing the word of `4 * n + 1` for `n` in the fixnum range gives `n`. -/
theorem sexp_unbox_integer_make (w : Nat) (hw : 3 ≤ w) (n : Int)
    (hlo : -(2 : Int) ^ (w - 3) ≤ n) (hhi : n < (2 : Int) ^ (w - 3)) :
    sexp_unbox_integer w (sexp_make_integer w n) = n := by
  obtain ⟨h1, h2⟩ := fixnum_in_range w hw n hlo hhi
  have hs : to_sint w (to_sexp w (n * 4 + 1)) = n * 4 + 1 :=
    sint_wrap_of_range w (by omega) _ h1 h2
  unfold sexp_unbox_integer
  rw [sexp_make_integer_eq, hs, sint_shr_two]
  omega

theorem sexp_integerp_make (w : Nat) (hw : 2 ≤ w) (n : Int) :
    sexp_integerp (sexp_make_integer w n) = true := by
  rw [sexp_integerp_iff, sexp_make_integer_eq, to_sexp_mod_four w hw]
  omega

/-- The six tag tests of a word depend on its residue modulo 16 only. -/
theorem tag_tests_mod (x : Nat) : tag_tests x = tag_tests (x % 16) := by
  have h4 : x % 16 % 4 = x % 4 := Nat.mod_mod_of_dvd x (by decide)
  have h8 : x % 16 % 8 = x % 8 := Nat.mod_mod_of_dvd x (by decide)
  simp [tag_tests, sexp_pointerp, sexp_integerp, tag_lsymbol_test, sexp_isymbolp, sexp_charp,
    tag_extended_test, SEXP_FIXNUM_MASK, SEXP_IMMEDIATE_MASK, SEXP_EXTENDED_MASK,
    and_three, and_seven, and_fifteen, h4, h8]

theorem tag_tests_small :
    ∀ r : Fin 16, (tag_tests r.val).count true ≤ 1 ∧
      (r.val % 4 ≠ 2 ∨ r.val = 6 ∨ r.val = 14 → (tag_tests r.val).count true = 1) := by
  decide

end Sexp

/-! ## Tag exclusivity -/

namespace Sexp

theorem tag_tests_count_le (x : Nat) : (tag_tests x).count true ≤ 1 := by
  rw [tag_tests_mod]
  exact (tag_tests_small ⟨x % 16, Nat.mod_lt x (by decide)⟩).1

theorem tag_tests_count_eq (x : Nat) (h : x % 16 % 4 ≠ 2 ∨ x % 16 = 6 ∨ x % 16 = 14) :
    (tag_tests x).count true = 1 := by
  rw [tag_tests_mod]
  exact (tag_tests_small ⟨x % 16, Nat.mod_lt x (by decide)⟩).2 h

/-- C1: on a word of at least four bits, every word built by
`sexp_make_integer`, `sexp_make_character` or `SEXP_MAKE_IMMEDIATE` (so each of
the eight singletons `SEXP_NULL` to `SEXP_RAWDOT`), and every pointer whose low
two bits are 00, passes exactly one of the six tag tests of the tagging table,
the one of its constructor; an arbitrary word passes at most one of the six. -/
theorem tag_tests_exactly_one (w : Nat) (hw : 4 ≤ w) :
    (∀ n : Int, sexp_integerp (sexp_make_integer w n) = true ∧
      (tag_tests (sexp_make_integer w n)).count true = 1) ∧
    (∀ c : Int, sexp_charp (sexp_make_character w c) = true ∧
      (tag_tests (sexp_make_character w c)).count true = 1) ∧
    (∀ k : Int, tag_extended_test (SEXP_MAKE_IMMEDIATE w k) = true ∧
      (tag_tests (SEXP_MAKE_IMMEDIATE w k)).count true = 1) ∧
    (∀ s ∈ [SEXP_NULL w, SEXP_FALSE w, SEXP_TRUE w, SEXP_EOF w, SEXP_UNDEF w, SEXP_ERROR w,
        SEXP_CLOSE w, SEXP_RAWDOT w],
      tag_extended_test s = true ∧ (tag_tests s).count true = 1) ∧
    (∀ p : Nat, p % 4 = 0 → sexp_pointerp p = true ∧ (tag_tests p).count true = 1) ∧
    (∀ x : Nat, (tag_tests x).count true ≤ 1) := by
  have himm : ∀ k : Int, tag_extended_test (SEXP_MAKE_IMMEDIATE w k) = true ∧
      (tag_tests (SEXP_MAKE_IMMEDIATE w k)).count true = 1 := by
    intro k
    have h := SEXP_MAKE_IMMEDIATE_mod w hw k
    exact ⟨(tag_extended_test_iff _).mpr h, tag_tests_count_eq _ (Or.inr (Or.inr h))⟩
  refine ⟨?_, ?_, himm, ?_, ?_, tag_tests_count_le⟩
  · intro n
    have h := sexp_make_integer_mod w hw n
    exact ⟨(sexp_integerp_iff _).mpr (by omega), tag_tests_count_eq _ (Or.inl (by omega))⟩
  · intro c
    have h := sexp_make_character_mod w hw c
    exact ⟨(sexp_charp_iff _).mpr h, tag_tests_count_eq _ (Or.inr (Or.inl h))⟩
  · intro s hs
    simp only [List.mem_cons, List.mem_singleton, List.not_mem_nil, or_false] at hs
    rcases hs with h | h | h | h | h | h | h | h <;> subst h <;> exact himm _
  · intro p hp
    exact ⟨(sexp_pointerp_iff _).mpr hp, tag_tests_count_eq _ (Or.inl (by omega))⟩

/-- Witness of C1 on a 64-bit word: the fixnum -5, the character 97, the
singleton `SEXP_TRUE` and the pointer 4096. -/
theorem tag_tests_exactly_one_witness :
    4 ≤ 64 ∧
    (sexp_integerp (sexp_make_integer 64 (-5)) = true ∧
      (tag_tests (sexp_make_integer 64 (-5))).count true = 1) ∧
    (sexp_charp (sexp_make_character 64 97) = true ∧
      (tag_tests (sexp_make_character 64 97)).count true = 1) ∧
    (tag_extended_test (SEXP_TRUE 64) = true ∧ (tag_tests (SEXP_TRUE 64)).count true = 1) ∧
    (sexp_pointerp 4096 = true ∧ (tag_tests 4096).count true = 1) :=
  ⟨by decide, (tag_tests_exactly_one 64 (by decide)).1 (-5),
    (tag_tests_exactly_one 64 (by decide)).2.1 97,
    (tag_tests_exactly_one 64 (by decide)).2.2.1 2,
    (tag_tests_exactly_one 64 (by decide)).2.2.2.2.1 4096 (by decide)⟩

end Sexp

/-! ## Fixnum round trip -/

namespace Sexp

/-- C2: on a w-bit word with w at least three, for every integer n with
-2^(w-3) <= n < 2^(w-3), the word `sexp_make_integer(n)` satisfies
`sexp_integerp` and `sexp_unbox_integer` gives n back, negative n included. -/
theorem fixnum_round_trip (w : Nat) (hw : 3 ≤ w) (n : Int)
    (hlo : -(2 : Int) ^ (w - 3) ≤ n) (hhi : n < (2 : Int) ^ (w - 3)) :
    sexp_integerp (sexp_make_integer w n) = true ∧
      sexp_unbox_integer w (sexp_make_integer w n) = n :=
  ⟨sexp_integerp_make w (by omega) n, sexp_unbox_integer_make w hw n hlo hhi⟩

/-- Witness of C2 on a 64-bit word: the least fixnum, -2^61. -/
theorem fixnum_round_trip_witness :
    3 ≤ 64 ∧ -(2 : Int) ^ (64 - 3) ≤ -2305843009213693952 ∧
      (-2305843009213693952 : Int) < (2 : Int) ^ (64 - 3) ∧
      sexp_integerp (sexp_make_integer 64 (-2305843009213693952)) = true ∧
      sexp_unbox_integer 64 (sexp_make_integer 64 (-2305843009213693952)) =
        -2305843009213693952 :=
  ⟨by decide, by decide, by decide,
    fixnum_round_trip 64 (by decide) (-2305843009213693952) (by decide) (by decide)⟩

end Sexp

/-! ## Addition and subtraction of fixnums -/

namespace Sexp

theorem sexp_add_eq (w : Nat) (a b : Nat) :
    sexp_add w a b = to_sexp w ((a : Int) + (b : Int) - 1) := by
  unfold sexp_add sint_sub sint_add
  apply to_sexp_congr
  exact (sint_wrap_modEq w _).trans
    (((sint_wrap_modEq w _).trans ((to_sint_modEq w a).add (to_sint_modEq w b))).sub_right _)

theorem sexp_sub_eq (w : Nat) (a b : Nat) :
    sexp_sub w a b = to_sexp w ((a : Int) - (b : Int) + 1) := by
  unfold sexp_sub sint_sub sint_add
  apply to_sexp_congr
  exact (sint_wrap_modEq w _).trans
    (((sint_wrap_modEq w _).trans ((to_sint_modEq w a).sub (to_sint_modEq w b))).add_right _)

/-- The word of a boxed fixnum, as an integer, up to a multiple of `2 ^ w`. -/
theorem sexp_make_integer_modEq (w : Nat) (n : Int) :
    ((sexp_make_integer w n : Nat) : Int) ≡ n * 4 + 1 [ZMOD ((2 ^ w : Nat) : Int)] := by
  rw [sexp_make_integer_eq]
  exact to_sexp_modEq w _

theorem sexp_add_make (w : Nat) (x y : Int) :
    sexp_add w (sexp_make_integer w x) (sexp_make_integer w y) = sexp_make_integer w (x + y) := by
  rw [sexp_add_eq, sexp_make_integer_eq w (x + y)]
  apply to_sexp_congr
  have h := ((sexp_make_integer_modEq w x).add (sexp_make_integer_modEq w y)).sub_right 1
  have e : x * 4 + 1 + (y * 4 + 1) - 1 = (x + y) * 4 + 1 := by ring
  rw [e] at h
  exact h

theorem sexp_sub_make (w : Nat) (x y : Int) :
    sexp_sub w (sexp_make_integer w x) (sexp_make_integer w y) = sexp_make_integer w (x - y) := by
  rw [sexp_sub_eq, sexp_make_integer_eq w (x - y)]
  apply to_sexp_congr
  have h := ((sexp_make_integer_modEq w x).sub (sexp_make_integer_modEq w y)).add_right 1
  have e : x * 4 + 1 - (y * 4 + 1) + 1 = (x - y) * 4 + 1 := by ring
  rw [e] at h
  exact h

/-- C3: on a w-bit word, for all integers x and y, `sexp_add` of
`sexp_make_integer(x)` and `sexp_make_integer(y)` is the word
`sexp_make_integer(x + y)`, taken modulo 2^w; it is fixnum-tagged whether or not
the sum overflows, and it unboxes to x + y when x + y is in the fixnum range. -/
theorem sexp_add_fixnums (w : Nat) (hw : 3 ≤ w) (x y : Int) :
    sexp_add w (sexp_make_integer w x) (sexp_make_integer w y) = sexp_make_integer w (x + y) ∧
    sexp_integerp (sexp_add w (sexp_make_integer w x) (sexp_make_integer w y)) = true ∧
    (-(2 : Int) ^ (w - 3) ≤ x + y → x + y < (2 : Int) ^ (w - 3) →
      sexp_unbox_integer w (sexp_add w (sexp_make_integer w x) (sexp_make_integer w y))
        = x + y) := by
  rw [sexp_add_make]
  exact ⟨rfl, sexp_integerp_make w (by omega) _,
    fun hlo hhi => sexp_unbox_integer_make w hw _ hlo hhi⟩

/-- Witness of C3 on a 64-bit word: the greatest fixnum plus one overflows the
fixnum range and the sum is still fixnum-tagged. -/
theorem sexp_add_fixnums_witness :
    3 ≤ 64 ∧
    sexp_add 64 (sexp_make_integer 64 2305843009213693951) (sexp_make_integer 64 1)
      = sexp_make_integer 64 (2305843009213693951 + 1) ∧
    sexp_integerp
      (sexp_add 64 (sexp_make_integer 64 2305843009213693951) (sexp_make_integer 64 1))
      = true :=
  ⟨by decide, (sexp_add_fixnums 64 (by decide) 2305843009213693951 1).1,
    (sexp_add_fixnums 64 (by decide) 2305843009213693951 1).2.1⟩

/-- C7: on a w-bit word, for all integers x and y, `sexp_sub` of
`sexp_make_integer(x)` and `sexp_make_integer(y)` is the word
`sexp_make_integer(x - y)`, taken modulo 2^w; it is fixnum-tagged, it unboxes to
x - y when x - y is in the fixnum range, and subtracting b from
`sexp_add(a, b)` gives a back for all fixnum-tagged words a and b. -/
theorem sexp_sub_fixnums (w : Nat) (hw : 3 ≤ w) (x y : Int) :
    sexp_sub w (sexp_make_integer w x) (sexp_make_integer w y) = sexp_make_integer w (x - y) ∧
    sexp_integerp (sexp_sub w (sexp_make_integer w x) (sexp_make_integer w y)) = true ∧
    (-(2 : Int) ^ (w - 3) ≤ x - y → x - y < (2 : Int) ^ (w - 3) →
      sexp_unbox_integer w (sexp_sub w (sexp_make_integer w x) (sexp_make_integer w y))
        = x - y) ∧
    sexp_sub w (sexp_add w (sexp_make_integer w x) (sexp_make_integer w y))
      (sexp_make_integer w y) = sexp_make_integer w x ∧
    (∀ a b : Nat, a < 2 ^ w → sexp_sub w (sexp_add w a b) b = a) := by
  rw [sexp_add_make, sexp_sub_make, sexp_sub_make]
  refine ⟨rfl, sexp_integerp_make w (by omega) _,
    fun hlo hhi => sexp_unbox_integer_make w hw _ hlo hhi, ?_, ?_⟩
  · rw [add_sub_cancel_right]
  · intro a b ha
    rw [sexp_sub_eq, sexp_add_eq]
    refine Eq.trans ?_ (to_sexp_of_lt w a ha)
    apply to_sexp_congr
    have h := ((to_sexp_modEq w ((a : Int) + (b : Int) - 1)).sub_right (b : Int)).add_right 1
    have e : (a : Int) + (b : Int) - 1 - (b : Int) + 1 = (a : Int) := by ring
    rw [e] at h
    exact h

/-- Witness of C7 on a 64-bit word: 3 - 5 = -2. -/
theorem sexp_sub_fixnums_witness :
    3 ≤ 64 ∧
    sexp_sub 64 (sexp_make_integer 64 3) (sexp_make_integer 64 5) = sexp_make_integer 64 (3 - 5) ∧
    sexp_sub 64 (sexp_add 64 (sexp_make_integer 64 3) (sexp_make_integer 64 5))
      (sexp_make_integer 64 5) = sexp_make_integer 64 3 :=
  ⟨by decide, (sexp_sub_fixnums 64 (by decide) 3 5).1,
    (sexp_sub_fixnums 64 (by decide) 3 5).2.2.2.1⟩

end Sexp

/-! ## Multiplication of fixnums -/

namespace Sexp

theorem four_dvd_two_pow (w : Nat) (hw : 2 ≤ w) : (4 : Int) ∣ ((2 ^ w : Nat) : Int) := by
  obtain ⟨k, rfl⟩ : ∃ k, w = 2 + k := ⟨w - 2, by omega⟩
  exact ⟨((2 ^ k : Nat) : Int), by rw [pow_add]; push_cast; norm_num⟩

theorem sexp_mul_eq (w : Nat) (a b : Nat) :
    sexp_mul w a b = to_sexp w ((to_sint w a - 1) * (to_sint w b / 4) + 1) := by
  unfold sexp_mul sint_add sint_mul sint_sub
  rw [sint_shr_two]
  apply to_sexp_congr
  exact (sint_wrap_modEq w _).trans
    (((sint_wrap_modEq w _).trans ((sint_wrap_modEq w _).mul_right _)).add_right _)

/-- The two's complement value of a boxed fixnum is one more than four times
its arithmetic shift by two. -/
theorem to_sint_make_integer (w : Nat) (hw : 2 ≤ w) (n : Int) :
    to_sint w (sexp_make_integer w n) / 4 * 4 + 1 = to_sint w (sexp_make_integer w n) := by
  have h1 : to_sint w (sexp_make_integer w n) ≡ n * 4 + 1 [ZMOD ((2 ^ w : Nat) : Int)] :=
    (to_sint_modEq w _).trans (sexp_make_integer_modEq w n)
  have h2 : to_sint w (sexp_make_integer w n) ≡ n * 4 + 1 [ZMOD 4] :=
    h1.of_dvd (four_dvd_two_pow w hw)
  have h3 : to_sint w (sexp_make_integer w n) % 4 = (n * 4 + 1) % 4 := h2
  omega

theorem sexp_mul_make (w : Nat) (hw : 2 ≤ w) (x y : Int) :
    sexp_mul w (sexp_make_integer w x) (sexp_make_integer w y) = sexp_make_integer w (x * y) := by
  rw [sexp_mul_eq, sexp_make_integer_eq w (x * y)]
  apply to_sexp_congr
  have ha : to_sint w (sexp_make_integer w x) - 1 ≡ x * 4 [ZMOD ((2 ^ w : Nat) : Int)] := by
    have h := ((to_sint_modEq w _).trans (sexp_make_integer_modEq w x)).sub_right 1
    rwa [add_sub_cancel_right] at h
  have hb : to_sint w (sexp_make_integer w y) / 4 * 4 ≡ y * 4 [ZMOD ((2 ^ w : Nat) : Int)] := by
    have h := ((to_sint_modEq w _).trans (sexp_make_integer_modEq w y)).sub_right 1
    rw [add_sub_cancel_right, ← to_sint_make_integer w hw y, add_sub_cancel_right] at h
    exact h
  have h1 := (ha.mul_right (to_sint w (sexp_make_integer w y) / 4)).add_right 1
  have h2 := (hb.mul_left x).add_right 1
  have e1 : x * 4 * (to_sint w (sexp_make_integer w y) / 4) + 1
      = x * (to_sint w (sexp_make_integer w y) / 4 * 4) + 1 := by ring
  have e2 : x * (y * 4) + 1 = x * y * 4 + 1 := by ring
  rw [e1] at h1
  rw [e2] at h2
  exact h1.trans h2

/-- C6: on a w-bit word, for all integers x and y, `sexp_mul` of
`sexp_make_integer(x)` and `sexp_make_integer(y)` is the word
`sexp_make_integer(x * y)`, taken modulo 2^w; it is fixnum-tagged, it unboxes to
x * y when x * y is in the fixnum range, and the operation commutes on boxed
fixnums although the macro treats its two operands differently. -/
theorem sexp_mul_fixnums (w : Nat) (hw : 3 ≤ w) (x y : Int) :
    sexp_mul w (sexp_make_integer w x) (sexp_make_integer w y) = sexp_make_integer w (x * y) ∧
    sexp_integerp (sexp_mul w (sexp_make_integer w x) (sexp_make_integer w y)) = true ∧
    (-(2 : Int) ^ (w - 3) ≤ x * y → x * y < (2 : Int) ^ (w - 3) →
      sexp_unbox_integer w (sexp_mul w (sexp_make_integer w x) (sexp_make_integer w y))
        = x * y) ∧
    sexp_mul w (sexp_make_integer w x) (sexp_make_integer w y)
      = sexp_mul w (sexp_make_integer w y) (sexp_make_integer w x) := by
  rw [sexp_mul_make w (by omega), sexp_mul_make w (by omega)]
  exact ⟨rfl, sexp_integerp_make w (by omega) _,
    fun hlo hhi => sexp_unbox_integer_make w hw _ hlo hhi, by rw [mul_comm]⟩

/-- Witness of C6 on a 64-bit word: 6 * -7 = -42, in both orders. -/
theorem sexp_mul_fixnums_witness :
    3 ≤ 64 ∧
    sexp_mul 64 (sexp_make_integer 64 6) (sexp_make_integer 64 (-7))
      = sexp_make_integer 64 (6 * -7) ∧
    sexp_mul 64 (sexp_make_integer 64 6) (sexp_make_integer 64 (-7))
      = sexp_mul 64 (sexp_make_integer 64 (-7)) (sexp_make_integer 64 6) :=
  ⟨by decide, (sexp_mul_fixnums 64 (by decide) 6 (-7)).1,
    (sexp_mul_fixnums 64 (by decide) 6 (-7)).2.2.2⟩

end Sexp

/-! ## Division and remainder of fixnums -/

namespace Sexp

theorem sizeof_sexp_struct_eq : sizeof_sexp_struct = 48 := by decide

/-- A shifted signed value cast to a word and then moved by one record: the
residue of `q * 4 + sz`. -/
theorem sexp_ptr_add_shl (w sz : Nat) (q : Int) :
    sexp_ptr_add w sz (to_sexp w (sint_shl w (sint_wrap w q) SEXP_FIXNUM_BITS)) SEXP_FIXNUM_TAG
      = to_sexp w (q * 4 + (sz : Int)) := by
  unfold sexp_ptr_add sint_shl
  apply to_sexp_congr
  have h1 : ((to_sexp w (sint_wrap w (sint_wrap w q * 2 ^ SEXP_FIXNUM_BITS)) : Nat) : Int)
      ≡ q * 4 [ZMOD ((2 ^ w : Nat) : Int)] :=
    (to_sexp_modEq w _).trans ((sint_wrap_modEq w _).trans ((sint_wrap_modEq w q).mul_right _))
  have e : ((SEXP_FIXNUM_TAG : Nat) : Int) * (sz : Int) = (sz : Int) := by
    simp [SEXP_FIXNUM_TAG]
  rw [e]
  exact h1.add_right (sz : Int)

/-- What `sexp_div` computes on boxed fixnums with a non-zero divisor: the
truncated quotient shifted by two, moved by the size of one record. When that
size is a multiple of four the result is pointer-tagged, not fixnum-tagged. -/
theorem sexp_div_make (w sz : Nat) (hw : 3 ≤ w) (x y : Int)
    (hx : -(2 : Int) ^ (w - 3) ≤ x ∧ x < (2 : Int) ^ (w - 3))
    (hy : -(2 : Int) ^ (w - 3) ≤ y ∧ y < (2 : Int) ^ (w - 3)) (hy0 : y ≠ 0) :
    sexp_div w sz (sexp_make_integer w x) (sexp_make_integer w y)
      = some (to_sexp w (Int.tdiv x y * 4 + (sz : Int))) ∧
    (4 ∣ sz → sexp_pointerp (to_sexp w (Int.tdiv x y * 4 + (sz : Int))) = true ∧
      sexp_integerp (to_sexp w (Int.tdiv x y * 4 + (sz : Int))) = false) := by
  have ux := sexp_unbox_integer_make w hw x hx.1 hx.2
  have uy := sexp_unbox_integer_make w hw y hy.1 hy.2
  unfold sexp_unbox_integer at ux uy
  constructor
  · unfold sexp_div sint_div
    rw [ux, uy, if_neg hy0, sexp_ptr_add_shl]
  · intro hsz
    have h4 := to_sexp_mod_four w (by omega) (Int.tdiv x y * 4 + (sz : Int))
    have hp : to_sexp w (Int.tdiv x y * 4 + (sz : Int)) % 4 = 0 := by omega
    refine ⟨(sexp_pointerp_iff _).mpr hp, ?_⟩
    cases hb : sexp_integerp (to_sexp w (Int.tdiv x y * 4 + (sz : Int)))
    · rfl
    · have := (sexp_integerp_iff _).mp hb
      omega

/-- What `sexp_mod` computes on boxed fixnums with a non-zero divisor: the
remainder shifted by two, moved by the size of one record. When that size is a
multiple of four the result is pointer-tagged, not fixnum-tagged. -/
theorem sexp_mod_make (w sz : Nat) (hw : 3 ≤ w) (x y : Int)
    (hx : -(2 : Int) ^ (w - 3) ≤ x ∧ x < (2 : Int) ^ (w - 3))
    (hy : -(2 : Int) ^ (w - 3) ≤ y ∧ y < (2 : Int) ^ (w - 3)) (hy0 : y ≠ 0) :
    sexp_mod w sz (sexp_make_integer w x) (sexp_make_integer w y)
      = some (to_sexp w (Int.tmod x y * 4 + (sz : Int))) ∧
    (4 ∣ sz → sexp_pointerp (to_sexp w (Int.tmod x y * 4 + (sz : Int))) = true ∧
      sexp_integerp (to_sexp w (Int.tmod x y * 4 + (sz : Int))) = false) := by
  have ux := sexp_unbox_integer_make w hw x hx.1 hx.2
  have uy := sexp_unbox_integer_make w hw y hy.1 hy.2
  unfold sexp_unbox_integer at ux uy
  constructor
  · unfold sexp_mod sint_mod
    rw [ux, uy, if_neg hy0, sexp_ptr_add_shl]
  · intro hsz
    have h4 := to_sexp_mod_four w (by omega) (Int.tmod x y * 4 + (sz : Int))
    have hp : to_sexp w (Int.tmod x y * 4 + (sz : Int)) % 4 = 0 := by omega
    refine ⟨(sexp_pointerp_iff _).mpr hp, ?_⟩
    cases hb : sexp_integerp (to_sexp w (Int.tmod x y * 4 + (sz : Int)))
    · rfl
    · have := (sexp_integerp_iff _).mp hb
      omega

/-- C4, at the fixnums 6 and 3 on LP64: `sexp_div` returns the word 56, which
is `4 * 2 + sizeof(struct sexp_struct)`; it is pointer-tagged, it is not the
word 9 of `sexp_make_integer(2)`, and it unboxes to 14. -/
theorem sexp_div_six_three :
    sexp_div 64 sizeof_sexp_struct (sexp_make_integer 64 6) (sexp_make_integer 64 3) = some 56 ∧
    sexp_make_integer 64 (Int.tdiv 6 3) = 9 ∧
    sexp_integerp 56 = false ∧ sexp_pointerp 56 = true ∧
    sexp_unbox_integer 64 56 = 14 := by
  decide

/-- C5, at the fixnums 7 and 3 on LP64: `sexp_mod` returns the word 52, which
is `4 * 1 + sizeof(struct sexp_struct)`; it is pointer-tagged, it is not the
word 5 of `sexp_make_integer(1)`, and it unboxes to 13. -/
theorem sexp_mod_seven_three :
    sexp_mod 64 sizeof_sexp_struct (sexp_make_integer 64 7) (sexp_make_integer 64 3) = some 52 ∧
    sexp_make_integer 64 (Int.tmod 7 3) = 5 ∧
    sexp_integerp 52 = false ∧ sexp_pointerp 52 = true ∧
    sexp_unbox_integer 64 52 = 13 := by
  decide

end Sexp

/-! ## Distinct values have distinct words -/

namespace Sexp

theorem to_sexp_of_nonneg_lt (w : Nat) (i : Int) (h0 : 0 ≤ i) (h1 : i < ((2 ^ w : Nat) : Int)) :
    ((to_sexp w i : Nat) : Int) = i := by
  rw [to_sexp_cast]
  exact Int.emod_eq_of_lt h0 h1

/-- A selector in `[0, 2 ^ (w - 4))` shifted by four and tagged does not wrap. -/
theorem extended_no_wrap (w : Nat) (hw : 4 ≤ w) (c t : Int)
    (h0 : 0 ≤ c) (h1 : c < (2 : Int) ^ (w - 4)) (ht0 : 0 ≤ t) (ht1 : t < 16) :
    ((to_sexp w (c * 16 + t) : Nat) : Int) = c * 16 + t := by
  apply to_sexp_of_nonneg_lt w _ (by omega)
  obtain ⟨k, rfl⟩ : ∃ k, w = k + 4 := ⟨w - 4, by omega⟩
  have e : k + 4 - 4 = k := by omega
  rw [e] at h1
  rw [pow_add]
  push_cast
  omega

end Sexp

/-! ## Heap type predicates -/

namespace Sexp

theorem SEXP_CHECK_TAG_true_iff (h : Heap) (x t : Nat) :
    (SEXP_CHECK_TAG h x t).1 = some true ↔ sexp_pointerp x = true ∧ h.tag x = some t := by
  unfold SEXP_CHECK_TAG
  cases hp : sexp_pointerp x
  · simp
  · cases ht : h.tag x <;> simp

/-- C9 as amended: if `sexp_lsymbolp(x)` holds in a heap then x is
pointer-tagged (its low two bits are 00) and the record at x has the
discriminator `SEXP_SYMBOL`; the low three bits of x are not 011;
`sexp_symbolp(x)` holds and `sexp_isymbolp(x)` does not. -/
theorem sexp_lsymbolp_pointer_tagged (h : Heap) (x : Nat)
    (hl : (sexp_lsymbolp h x).1 = some true) :
    x &&& SEXP_FIXNUM_MASK = SEXP_POINTER_TAG ∧
    h.tag x = some SEXP_SYMBOL ∧
    x &&& SEXP_IMMEDIATE_MASK ≠ SEXP_LSYMBOL_TAG ∧
    (sexp_symbolp h x).1 = some true ∧
    sexp_isymbolp x = false := by
  obtain ⟨hp, ht⟩ := (SEXP_CHECK_TAG_true_iff h x SEXP_SYMBOL).mp hl
  have h4 := (sexp_pointerp_iff x).mp hp
  have hi : sexp_isymbolp x = false := by
    cases hb : sexp_isymbolp x
    · rfl
    · have := (sexp_isymbolp_iff x).mp hb
      omega
  refine ⟨?_, ht, ?_, ?_, hi⟩
  · simp only [SEXP_FIXNUM_MASK, SEXP_POINTER_TAG, and_three]
    exact h4
  · simp only [SEXP_IMMEDIATE_MASK, SEXP_LSYMBOL_TAG, and_seven]
    omega
  · unfold sexp_symbolp
    rw [hi]
    exact hl

/-- Witness of the amended C9: the long symbol stored at the address 4096. -/
theorem sexp_lsymbolp_pointer_tagged_witness :
    (sexp_lsymbolp heap_one_symbol 4096).1 = some true ∧
    4096 &&& SEXP_FIXNUM_MASK = SEXP_POINTER_TAG ∧
    4096 &&& SEXP_IMMEDIATE_MASK ≠ SEXP_LSYMBOL_TAG :=
  ⟨by decide, (sexp_lsymbolp_pointer_tagged heap_one_symbol 4096 (by decide)).1,
    (sexp_lsymbolp_pointer_tagged heap_one_symbol 4096 (by decide)).2.2.1⟩

/-- Counterexample to C9 as stated: the word 4096 satisfies `sexp_lsymbolp` in a
heap that holds a long symbol there, and its low three bits are 000, not 011. -/
theorem sexp_lsymbolp_not_lsymbol_tagged :
    ¬ (∀ (h : Heap) (x : Nat), (sexp_lsymbolp h x).1 = some true →
        x &&& SEXP_IMMEDIATE_MASK = SEXP_LSYMBOL_TAG) := by
  intro hall
  exact absurd (hall heap_one_symbol 4096 (by decide)) (by decide)

end Sexp

/-! ## The singleton immediates -/

namespace Sexp

/-- On a word of at least seven bits, the singleton with selector `k` in 0..7
is the number `16 * k + 14`. -/
theorem SEXP_MAKE_IMMEDIATE_small (w : Nat) (hw : 7 ≤ w) (k : Nat) (hk : k ≤ 7) :
    SEXP_MAKE_IMMEDIATE w (k : Int) = 16 * k + 14 := by
  have hp : (8 : Int) ≤ (2 : Int) ^ (w - 4) := by
    have h : (2 : Int) ^ 3 ≤ (2 : Int) ^ (w - 4) :=
      pow_le_pow_right₀ (by norm_num) (by omega)
    norm_num at h
    exact h
  have h := extended_no_wrap w (by omega) (k : Int) 14 (by omega) (by omega) (by decide)
    (by decide)
  have e27 : (2 : Int) ^ 27 = 134217728 := by norm_num
  rw [← SEXP_MAKE_IMMEDIATE_eq w (k : Int) (by omega) (by rw [e27]; omega)] at h
  omega

theorem singleton_values (w : Nat) (hw : 7 ≤ w) :
    SEXP_NULL w = 14 ∧ SEXP_FALSE w = 30 ∧ SEXP_TRUE w = 46 ∧ SEXP_EOF w = 62 ∧
    SEXP_UNDEF w = 78 ∧ SEXP_ERROR w = 94 ∧ SEXP_CLOSE w = 110 ∧ SEXP_RAWDOT w = 126 :=
  ⟨SEXP_MAKE_IMMEDIATE_small w hw 0 (by decide), SEXP_MAKE_IMMEDIATE_small w hw 1 (by decide),
    SEXP_MAKE_IMMEDIATE_small w hw 2 (by decide), SEXP_MAKE_IMMEDIATE_small w hw 3 (by decide),
    SEXP_MAKE_IMMEDIATE_small w hw 4 (by decide), SEXP_MAKE_IMMEDIATE_small w hw 5 (by decide),
    SEXP_MAKE_IMMEDIATE_small w hw 6 (by decide), SEXP_MAKE_IMMEDIATE_small w hw 7 (by decide)⟩

/-- C11: on a word of at least seven bits, the eight singleton immediates are
pairwise distinct, each has the low four bits 1110 and its selector 0..7 in the
remaining high bits; `sexp_nullp(x)` holds iff x is `SEXP_NULL`,
`sexp_booleanp(x)` holds iff x is `SEXP_TRUE` or `SEXP_FALSE`; neither holds
of a fixnum, a character, an immediate symbol or a pointer-tagged word, the
fixnum 0 and the zero word included. -/
theorem singleton_immediates (w : Nat) (hw : 7 ≤ w) :
    [SEXP_NULL w, SEXP_FALSE w, SEXP_TRUE w, SEXP_EOF w, SEXP_UNDEF w, SEXP_ERROR w,
      SEXP_CLOSE w, SEXP_RAWDOT w].Nodup ∧
    (∀ p ∈ [(SEXP_NULL w, 0), (SEXP_FALSE w, 1), (SEXP_TRUE w, 2), (SEXP_EOF w, 3),
        (SEXP_UNDEF w, 4), (SEXP_ERROR w, 5), (SEXP_CLOSE w, 6), (SEXP_RAWDOT w, 7)],
      p.1 &&& SEXP_EXTENDED_MASK = SEXP_EXTENDED_TAG ∧ p.1 >>> SEXP_EXTENDED_BITS = p.2) ∧
    (∀ x : Nat, sexp_nullp w x = true ↔ x = SEXP_NULL w) ∧
    (∀ x : Nat, sexp_booleanp w x = true ↔ x = SEXP_TRUE w ∨ x = SEXP_FALSE w) ∧
    (∀ x : Nat, sexp_integerp x = true ∨ sexp_charp x = true ∨ sexp_isymbolp x = true ∨
        sexp_pointerp x = true → sexp_nullp w x = false ∧ sexp_booleanp w x = false) ∧
    (sexp_nullp w (sexp_make_integer w 0) = false ∧
      sexp_booleanp w (sexp_make_integer w 0) = false) ∧
    (sexp_nullp w 0 = false ∧ sexp_booleanp w 0 = false) := by
  obtain ⟨h0, h1, h2, h3, h4, h5, h6, h7⟩ := singleton_values w hw
  have hcls : ∀ x : Nat, sexp_integerp x = true ∨ sexp_charp x = true ∨
      sexp_isymbolp x = true ∨ sexp_pointerp x = true →
      sexp_nullp w x = false ∧ sexp_booleanp w x = false := by
    intro x hx
    have hx16 : x % 16 ≠ 14 := by
      rcases hx with h | h | h | h
      · have := (sexp_integerp_iff x).mp h
        omega
      · have := (sexp_charp_iff x).mp h
        omega
      · have := (sexp_isymbolp_iff x).mp h
        omega
      · have := (sexp_pointerp_iff x).mp h
        omega
    have n0 : x ≠ 14 := by omega
    have n1 : x ≠ 30 := by omega
    have n2 : x ≠ 46 := by omega
    simp [sexp_nullp, sexp_booleanp, h0, h1, h2, n0, n1, n2]
  refine ⟨?_, ?_, ?_, ?_, hcls, ?_, ?_⟩
  · rw [h0, h1, h2, h3, h4, h5, h6, h7]
    decide
  · rw [h0, h1, h2, h3, h4, h5, h6, h7]
    decide
  · intro x
    simp [sexp_nullp]
  · intro x
    simp [sexp_booleanp]
  · exact hcls _ (Or.inl (sexp_integerp_make w (by omega) 0))
  · exact hcls 0 (Or.inr (Or.inr (Or.inr (by decide))))

/-- Witness of C11 on a 64-bit word: the singletons are pairwise distinct, and
`SEXP_NULL` is not the fixnum 0. -/
theorem singleton_immediates_witness :
    7 ≤ 64 ∧
    [SEXP_NULL 64, SEXP_FALSE 64, SEXP_TRUE 64, SEXP_EOF 64, SEXP_UNDEF 64, SEXP_ERROR 64,
      SEXP_CLOSE 64, SEXP_RAWDOT 64].Nodup ∧
    (sexp_nullp 64 (sexp_make_integer 64 0) = false ∧
      sexp_booleanp 64 (sexp_make_integer 64 0) = false) :=
  ⟨by decide, (singleton_immediates 64 (by decide)).1,
    (singleton_immediates 64 (by decide)).2.2.2.2.2.1⟩

end Sexp

/-! ## Character round trip -/

namespace Sexp

/-- The arithmetic shift by four is the quotient by sixteen rounded down. -/
theorem sint_shr_four (a : Int) : sint_shr a SEXP_EXTENDED_BITS = a / 16 := by
  unfold sint_shr SEXP_EXTENDED_BITS
  rw [Int.shiftRight_eq_div_pow]
  rfl

/-- A code point in `[0, 2 ^ (w - 5))`, boxed: `16 * c + 6` lies in the signed
range. -/
theorem character_in_range (w : Nat) (hw : 5 ≤ w) (c : Int)
    (h0 : 0 ≤ c) (h1 : c < (2 : Int) ^ (w - 5)) :
    -((2 ^ (w - 1) : Nat) : Int) ≤ c * 16 + 6 ∧ c * 16 + 6 < ((2 ^ (w - 1) : Nat) : Int) := by
  obtain ⟨k, rfl⟩ : ∃ k, w = k + 5 := ⟨w - 5, by omega⟩
  have e1 : k + 5 - 5 = k := by omega
  have e2 : k + 5 - 1 = k + 4 := by omega
  rw [e1] at h1
  rw [e2, pow_add]
  push_cast
  omega

/-- Unboxing the word of `16 * c + 6` for a code point `c` in
`[0, 2 ^ (w - 5))` gives `c`. -/
theorem sexp_unbox_character_make (w : Nat) (hw : 5 ≤ w) (c : Int)
    (h0 : 0 ≤ c) (h1 : c < (2 : Int) ^ (w - 5)) :
    sexp_unbox_character w (sexp_make_character w c) = c := by
  obtain ⟨r1, r2⟩ := character_in_range w hw c h0 h1
  have hs : to_sint w (to_sexp w (c * 16 + 6)) = c * 16 + 6 :=
    sint_wrap_of_range w (by omega) _ r1 r2
  unfold sexp_unbox_character
  rw [sexp_make_character_eq, hs, sint_shr_four]
  omega

theorem not_true_of_mod (b : Bool) (h : b = true → False) : b = false := by
  cases b
  · rfl
  · exact absurd rfl h

/-- C12: on a w-bit word with w at least five, for every code point c with
0 <= c < 2^(w-5), the word `sexp_make_character(c)` satisfies `sexp_charp` and
none of `sexp_pointerp`, `sexp_integerp`, `sexp_isymbolp`, and
`sexp_unbox_character` gives c back. -/
theorem character_round_trip (w : Nat) (hw : 5 ≤ w) (c : Int)
    (h0 : 0 ≤ c) (h1 : c < (2 : Int) ^ (w - 5)) :
    sexp_charp (sexp_make_character w c) = true ∧
    sexp_pointerp (sexp_make_character w c) = false ∧
    sexp_integerp (sexp_make_character w c) = false ∧
    sexp_isymbolp (sexp_make_character w c) = false ∧
    sexp_unbox_character w (sexp_make_character w c) = c := by
  have hm := sexp_make_character_mod w (by omega) c
  refine ⟨(sexp_charp_iff _).mpr hm, ?_, ?_, ?_, ?_⟩
  · apply not_true_of_mod
    intro h
    have := (sexp_pointerp_iff _).mp h
    omega
  · apply not_true_of_mod
    intro h
    have := (sexp_integerp_iff _).mp h
    omega
  · apply not_true_of_mod
    intro h
    have := (sexp_isymbolp_iff _).mp h
    omega
  · exact sexp_unbox_character_make w hw c h0 h1

/-- Witness of C12 on a 64-bit word: the greatest Unicode code point, 0x10FFFF. -/
theorem character_round_trip_witness :
    5 ≤ 64 ∧ (0 : Int) ≤ 1114111 ∧ (1114111 : Int) < (2 : Int) ^ (64 - 5) ∧
    sexp_charp (sexp_make_character 64 1114111) = true ∧
    sexp_unbox_character 64 (sexp_make_character 64 1114111) = 1114111 :=
  ⟨by decide, by decide, by decide,
    (character_round_trip 64 (by decide) 1114111 (by decide) (by decide)).1,
    (character_round_trip 64 (by decide) 1114111 (by decide) (by decide)).2.2.2.2⟩

end Sexp

/-! ## The dot symbol of the compact symbol mode -/

namespace Sexp

theorem dot_constant (w : Nat) (hw : 18 ≤ w) :
    to_sexp w ((0x5D00 : Int) * 2 ^ SEXP_IMMEDIATE_BITS + SEXP_ISYMBOL_TAG) = 190471 := by
  have hp : 2 ^ 18 ≤ 2 ^ w := Nat.pow_le_pow_right (by decide) hw
  have hlt : 190471 < 2 ^ w := by
    have : (190471 : Nat) < 2 ^ 18 := by decide
    omega
  have e : ((0x5D00 : Int) * 2 ^ SEXP_IMMEDIATE_BITS + SEXP_ISYMBOL_TAG) = ((190471 : Nat) : Int) := by
    decide
  rw [e]
  exact to_sexp_of_lt w 190471 hlt

/-- C13: on a word of at least eighteen bits, in the compact symbol mode
`SEXP_DOTP(x)` holds of exactly one word, `(0x5D00 << 3) + 7`; that word
satisfies `sexp_isymbolp`, so `sexp_symbolp` in every heap, and no other tag
test; it differs from `SEXP_RAWDOT` and every other singleton immediate, from
every fixnum and from every character. -/
theorem dot_symbol_reserved (w : Nat) (hw : 18 ≤ w) :
    (∀ x : Nat, SEXP_DOTP w x = true ↔ x = (0x5D00 <<< SEXP_IMMEDIATE_BITS) + SEXP_ISYMBOL_TAG) ∧
    sexp_isymbolp ((0x5D00 <<< SEXP_IMMEDIATE_BITS) + SEXP_ISYMBOL_TAG) = true ∧
    (∀ h : Heap, (sexp_symbolp h ((0x5D00 <<< SEXP_IMMEDIATE_BITS) + SEXP_ISYMBOL_TAG)).1
      = some true) ∧
    (tag_tests ((0x5D00 <<< SEXP_IMMEDIATE_BITS) + SEXP_ISYMBOL_TAG)
      = [false, false, false, true, false, false]) ∧
    SEXP_DOTP w (SEXP_RAWDOT w) = false ∧
    (∀ k : Int, SEXP_DOTP w (SEXP_MAKE_IMMEDIATE w k) = false) ∧
    (∀ n : Int, SEXP_DOTP w (sexp_make_integer w n) = false) ∧
    (∀ c : Int, SEXP_DOTP w (sexp_make_character w c) = false) := by
  have hv : (0x5D00 <<< SEXP_IMMEDIATE_BITS) + SEXP_ISYMBOL_TAG = 190471 := by decide
  have hd : ∀ x : Nat, SEXP_DOTP w x = true ↔ x = 190471 := by
    intro x
    unfold SEXP_DOTP
    rw [dot_constant w hw]
    simp
  have hne : ∀ x : Nat, x % 16 ≠ 7 → SEXP_DOTP w x = false := by
    intro x hx
    apply not_true_of_mod
    intro h
    have := (hd x).mp h
    omega
  rw [hv]
  refine ⟨hd, by decide, ?_, by decide, ?_, ?_, ?_, ?_⟩
  · intro h
    unfold sexp_symbolp
    have hi : sexp_isymbolp 190471 = true := by decide
    rw [hi]
    rfl
  · have := SEXP_MAKE_IMMEDIATE_mod w (by omega) 7
    exact hne _ (by unfold SEXP_RAWDOT; omega)
  · intro k
    have := SEXP_MAKE_IMMEDIATE_mod w (by omega) k
    exact hne _ (by omega)
  · intro n
    have := sexp_make_integer_mod w (by omega) n
    exact hne _ (by omega)
  · intro c
    have := sexp_make_character_mod w (by omega) c
    exact hne _ (by omega)

/-- Witness of C13 on a 64-bit word: the dot symbol is the word 190471 and the
reader's raw dot is not. -/
theorem dot_symbol_reserved_witness :
    18 ≤ 64 ∧ SEXP_DOTP 64 190471 = true ∧ SEXP_DOTP 64 (SEXP_RAWDOT 64) = false :=
  ⟨by decide, ((dot_symbol_reserved 64 (by decide)).1 190471).mpr (by decide),
    (dot_symbol_reserved 64 (by decide)).2.2.2.2.1⟩

end Sexp

/-! ## The root environment -/

namespace Sexp

theorem sexp_env_global_p_iff (e : sexp_env) :
    sexp_env_global_p e = true ↔ sexp_env_parent e = 0 := by
  simp [sexp_env_global_p]

theorem sexp_env_not_global (e : sexp_env) (h : sexp_env_parent e ≠ 0) :
    sexp_env_global_p e = false :=
  not_true_of_mod _ (fun hg => h ((sexp_env_global_p_iff e).mp hg))

/-- C14: `sexp_env_parent` reads the parent slot of an environment record, and
`sexp_env_global_p` holds iff that slot is the zero word, so a record whose
parent slot is zero is reported global. On a word of at least four bits no
constructor gives the zero word: `sexp_make_integer(n)`,
`sexp_make_character(c)` and `SEXP_MAKE_IMMEDIATE(k)` are non-zero,
`SEXP_NULL`, `SEXP_FALSE` and the fixnum 0 included. A record whose parent slot
holds a fixnum, a character, a singleton, an immediate symbol, or a pointer to
an environment record of a heap with no record at the null address, is not
reported global. -/
theorem env_global_iff_no_parent (w : Nat) (hw : 4 ≤ w) :
    (∀ (flags : Int) (parent bindings : Nat),
      sexp_env_parent ⟨flags, parent, bindings⟩ = parent ∧
      (sexp_env_global_p ⟨flags, parent, bindings⟩ = true ↔ parent = 0)) ∧
    (∀ (flags : Int) (bindings : Nat), sexp_env_global_p ⟨flags, 0, bindings⟩ = true) ∧
    (∀ n : Int, sexp_make_integer w n ≠ 0 ∧ sexp_make_character w n ≠ 0 ∧
      SEXP_MAKE_IMMEDIATE w n ≠ 0) ∧
    (SEXP_NULL w ≠ 0 ∧ SEXP_FALSE w ≠ 0 ∧ sexp_make_integer w 0 ≠ 0) ∧
    (∀ (flags : Int) (bindings : Nat) (n : Int),
      sexp_env_global_p ⟨flags, sexp_make_integer w n, bindings⟩ = false ∧
      sexp_env_global_p ⟨flags, sexp_make_character w n, bindings⟩ = false ∧
      sexp_env_global_p ⟨flags, SEXP_MAKE_IMMEDIATE w n, bindings⟩ = false) ∧
    (∀ (flags : Int) (parent bindings : Nat), sexp_isymbolp parent = true →
      sexp_env_global_p ⟨flags, parent, bindings⟩ = false) ∧
    (∀ (flags : Int) (parent bindings : Nat) (h : Heap), h.tag 0 = none →
      (sexp_envp h parent).1 = some true →
      sexp_env_global_p ⟨flags, parent, bindings⟩ = false) := by
  have hnz : ∀ n : Int, sexp_make_integer w n ≠ 0 ∧ sexp_make_character w n ≠ 0 ∧
      SEXP_MAKE_IMMEDIATE w n ≠ 0 := by
    intro n
    have mi := sexp_make_integer_mod w hw n
    have mc := sexp_make_character_mod w hw n
    have mk := SEXP_MAKE_IMMEDIATE_mod w hw n
    refine ⟨?_, ?_, ?_⟩
    · intro h0
      rw [h0] at mi
      omega
    · intro h0
      rw [h0] at mc
      omega
    · intro h0
      rw [h0] at mk
      omega
  refine ⟨?_, ?_, hnz, ⟨(hnz 0).2.2, (hnz 1).2.2, (hnz 0).1⟩, ?_, ?_, ?_⟩
  · intro flags parent bindings
    exact ⟨rfl, sexp_env_global_p_iff ⟨flags, parent, bindings⟩⟩
  · intro flags bindings
    exact (sexp_env_global_p_iff ⟨flags, 0, bindings⟩).mpr rfl
  · intro flags bindings n
    exact ⟨sexp_env_not_global _ (hnz n).1, sexp_env_not_global _ (hnz n).2.1,
      sexp_env_not_global _ (hnz n).2.2⟩
  · intro flags parent bindings hs
    apply sexp_env_not_global
    intro h0
    have h1 : parent = 0 := h0
    rw [h1] at hs
    exact absurd hs (by decide)
  · intro flags parent bindings h hnull henv
    apply sexp_env_not_global
    intro h0
    have h1 : parent = 0 := h0
    rw [h1] at henv
    have ht := ((SEXP_CHECK_TAG_true_iff h 0 SEXP_ENV).mp henv).2
    rw [hnull] at ht
    exact absurd ht (by simp)

/-- Witness of C14 on a 64-bit word: a record whose parent slot is zero is
global, and records whose parent slot holds `SEXP_NULL` or the fixnum 0 are
not. -/
theorem env_global_iff_no_parent_witness :
    4 ≤ 64 ∧ sexp_env_global_p ⟨0, 0, 0⟩ = true ∧
    sexp_env_parent ⟨0, SEXP_NULL 64, 0⟩ = SEXP_NULL 64 ∧
    sexp_env_global_p ⟨0, SEXP_NULL 64, 0⟩ = false ∧
    sexp_env_global_p ⟨0, sexp_make_integer 64 0, 0⟩ = false :=
  ⟨by decide,
    (env_global_iff_no_parent 64 (by decide)).2.1 0 0,
    ((env_global_iff_no_parent 64 (by decide)).1 0 (SEXP_NULL 64) 0).1,
    ((env_global_iff_no_parent 64 (by decide)).2.2.2.2.1 0 0 0).2.2,
    ((env_global_iff_no_parent 64 (by decide)).2.2.2.2.1 0 0 0).1⟩

end Sexp

/-! ## Comparison of boxed fixnums -/

namespace Sexp

/-- The two's complement value of a boxed fixnum in range is `4 * n + 1`. -/
theorem to_sint_make_integer_of_range (w : Nat) (hw : 3 ≤ w) (n : Int)
    (hlo : -(2 : Int) ^ (w - 3) ≤ n) (hhi : n < (2 : Int) ^ (w - 3)) :
    to_sint w (sexp_make_integer w n) = n * 4 + 1 := by
  obtain ⟨h1, h2⟩ := fixnum_in_range w hw n hlo hhi
  rw [sexp_make_integer_eq]
  exact sint_wrap_of_range w (by omega) _ h1 h2

/-- C15: on a w-bit word with w at least three, for all integers x and y in
the fixnum range, x < y iff the word `sexp_make_integer(x)` is less than the
word `sexp_make_integer(y)` when both are read as signed w-bit integers, and
x = y iff the two words are equal. -/
theorem boxing_preserves_order (w : Nat) (hw : 3 ≤ w) (x y : Int)
    (hx : -(2 : Int) ^ (w - 3) ≤ x ∧ x < (2 : Int) ^ (w - 3))
    (hy : -(2 : Int) ^ (w - 3) ≤ y ∧ y < (2 : Int) ^ (w - 3)) :
    (x < y ↔ to_sint w (sexp_make_integer w x) < to_sint w (sexp_make_integer w y)) ∧
    (x = y ↔ sexp_make_integer w x = sexp_make_integer w y) := by
  have ex := to_sint_make_integer_of_range w hw x hx.1 hx.2
  have ey := to_sint_make_integer_of_range w hw y hy.1 hy.2
  constructor
  · rw [ex, ey]
    omega
  · constructor
    · intro h
      rw [h]
    · intro h
      rw [h, ey] at ex
      omega

/-- Witness of C15 on a 64-bit word: the least fixnum -2^61 and the fixnum 1,
whose words are 2^63 + 1 and 5. -/
theorem boxing_preserves_order_witness :
    3 ≤ 64 ∧
    ((-2305843009213693952 : Int) < 1 ↔
      to_sint 64 (sexp_make_integer 64 (-2305843009213693952))
        < to_sint 64 (sexp_make_integer 64 1)) ∧
    sexp_make_integer 64 (-2305843009213693952) = 9223372036854775809 ∧
    sexp_make_integer 64 1 = 5 :=
  ⟨by decide,
    (boxing_preserves_order 64 (by decide) (-2305843009213693952) 1 (by decide) (by decide)).1,
    by decide, by decide⟩

end Sexp

/-! ## The variadic flag of a procedure -/

namespace Sexp

/-- A word below the sign bound is its own two's complement value. -/
theorem to_sint_of_lt (w : Nat) (hw : 1 ≤ w) (x : Nat) (hx : x < 2 ^ (w - 1)) :
    to_sint w x = (x : Int) := by
  obtain ⟨k, rfl⟩ : ∃ k, w = k + 1 := ⟨w - 1, by omega⟩
  have e : k + 1 - 1 = k := by omega
  rw [e] at hx
  have h2 : 2 ^ (k + 1) = 2 * 2 ^ k := by rw [pow_succ]; ring
  have hm : x % 2 ^ (k + 1) = x := Nat.mod_eq_of_lt (by omega)
  unfold to_sint
  rw [hm, e, if_pos hx]

/-- On a word of at least nine bits every value of a `char`, signed or
unsigned, is kept by the cast to `sexp_sint_t`. -/
theorem sint_wrap_char (w : Nat) (hw : 9 ≤ w) (f : Int) (h0 : -128 ≤ f) (h1 : f ≤ 255) :
    to_sint w (to_sexp w f) = f := by
  have hp : (2 : Nat) ^ 8 ≤ 2 ^ (w - 1) := Nat.pow_le_pow_right (by decide) (by omega)
  have hp2 : (256 : Int) ≤ ((2 ^ (w - 1) : Nat) : Int) := by
    have : (256 : Nat) ≤ 2 ^ (w - 1) := by
      have e : (2 : Nat) ^ 8 = 256 := by decide
      omega
    exact_mod_cast this
  exact sint_wrap_of_range w (by omega) f (by omega) (by omega)

/-- The mask 4 selects bit 2 of a number. -/
theorem and_four_ne_zero_iff (x : Nat) : x &&& 4 ≠ 0 ↔ x / 4 % 2 = 1 := by
  have h := Nat.and_two_pow x 2
  have e : (2 : Nat) ^ 2 = 4 := by decide
  rw [e] at h
  rw [h, Nat.testBit_to_div_mod, e]
  by_cases hb : x / 4 % 2 = 1 <;> simp [hb]

theorem sexp_procedure_variadic_p_eq (w : Nat) (hw : 9 ≤ w) (p : sexp_procedure)
    (h0 : -128 ≤ p.flags) (h1 : p.flags ≤ 255) :
    sexp_procedure_variadic_p w p = p.flags / 4 % 2 := by
  have hone : to_sexp w 1 = 1 := by
    have h : (1 : Nat) < 2 ^ w := Nat.one_lt_two_pow (by omega)
    exact to_sexp_of_lt w 1 h
  have hm := to_sexp_mod_four w (by omega) (p.flags / 4)
  have hlt : to_sexp w (p.flags / 4) % 2 < 2 ^ (w - 1) := by
    have hp : (2 : Nat) ^ 1 ≤ 2 ^ (w - 1) := Nat.pow_le_pow_right (by decide) (by omega)
    have e : (2 : Nat) ^ 1 = 2 := by decide
    have := Nat.mod_lt (to_sexp w (p.flags / 4)) (by decide : 0 < 2)
    omega
  unfold sexp_procedure_variadic_p sint_and sexp_unbox_integer sexp_procedure_flags
  rw [sint_wrap_char w hw p.flags h0 h1, sint_shr_two]
  rw [hone, Nat.and_one_is_mod, to_sint_of_lt w (by omega) _ hlt]
  omega

/-- C17: on a word of at least nine bits, for every value f of the `char`
flags field of a procedure record, `sexp_procedure_variadic_p` is
`(f >> 2) & 1`: it is non-zero iff bit 2 (mask 4) of the flags byte is set.
It differs from the convention `flags & 1` of `sexp_opcode_variadic_p`: with
the flags byte 1 the procedure is reported non-variadic and with the flags
byte 4 it is reported variadic. -/
theorem procedure_variadic_is_bit_two (w : Nat) (hw : 9 ≤ w) (p : sexp_procedure)
    (hf : -128 ≤ sexp_procedure_flags p ∧ sexp_procedure_flags p ≤ 255) :
    sexp_procedure_variadic_p w p = sint_shr (sexp_procedure_flags p) 2 % 2 ∧
    (sexp_procedure_variadic_p w p ≠ 0 ↔
      Nat.testBit (to_sexp 8 (sexp_procedure_flags p)) 2 = true) ∧
    (sexp_procedure_variadic_p w p ≠ 0 ↔ to_sexp 8 (sexp_procedure_flags p) &&& 4 ≠ 0) ∧
    (sexp_procedure_flags p = 1 → sexp_procedure_variadic_p w p = 0) ∧
    (sexp_procedure_flags p = 4 → sexp_procedure_variadic_p w p = 1) ∧
    (∀ o : sexp_opcode, sexp_opcode_flags o = 1 → sexp_opcode_variadic_p o = 1) ∧
    (∀ o : sexp_opcode, sexp_opcode_flags o = 4 → sexp_opcode_variadic_p o = 0) := by
  unfold sexp_procedure_flags at hf ⊢
  have hv := sexp_procedure_variadic_p_eq w hw p hf.1 hf.2
  have hb : ((to_sexp 8 p.flags : Nat) : Int) = p.flags % 256 := to_sexp_cast 8 p.flags
  have hlt : to_sexp 8 p.flags < 256 := to_sexp_lt 8 p.flags
  have hb4 := and_four_ne_zero_iff (to_sexp 8 p.flags)
  have hs : sint_shr p.flags 2 = p.flags / 4 := sint_shr_two p.flags
  rw [hv, hs, Nat.testBit_to_div_mod, hb4]
  refine ⟨rfl, ?_, ?_, ?_, ?_, ?_, ?_⟩
  · simp only [decide_eq_true_eq]
    have e : (2 : Nat) ^ 2 = 4 := by decide
    rw [e]
    omega
  · omega
  · intro h
    rw [h]
    decide
  · intro h
    rw [h]
    decide
  · intro o h
    unfold sexp_opcode_variadic_p
    rw [h]
    decide
  · intro o h
    unfold sexp_opcode_variadic_p
    rw [h]
    decide

/-- Witness of C17 on a 64-bit word: the flags bytes 1 and 4. -/
theorem procedure_variadic_is_bit_two_witness :
    9 ≤ 64 ∧
    sexp_procedure_variadic_p 64 ⟨1, 0, 0, 0⟩ = 0 ∧
    sexp_procedure_variadic_p 64 ⟨4, 0, 0, 0⟩ = 1 :=
  ⟨by decide,
    (procedure_variadic_is_bit_two 64 (by decide) ⟨1, 0, 0, 0⟩ (by decide)).2.2.2.1 rfl,
    (procedure_variadic_is_bit_two 64 (by decide) ⟨4, 0, 0, 0⟩ (by decide)).2.2.2.2.1 rfl⟩

end Sexp

/-! ## Writing and reading a string element -/

namespace Sexp

/-- A character code in 0..127 is kept by the conversion to `char`, whether
`char` is signed or not. -/
theorem to_char_ascii (char_signed : Bool) (c : Int) (h0 : 0 ≤ c) (h1 : c ≤ 127) :
    to_char char_signed c = c := by
  unfold to_char
  split
  · split <;> omega
  · omega

/-- On a word of at least twelve bits a character code in 0..127 round-trips. -/
theorem sexp_unbox_character_ascii (w : Nat) (hw : 12 ≤ w) (c : Int) (h0 : 0 ≤ c)
    (h1 : c ≤ 127) : sexp_unbox_character w (sexp_make_character w c) = c := by
  have hp : (2 : Int) ^ 7 ≤ (2 : Int) ^ (w - 5) := pow_le_pow_right₀ (by norm_num) (by omega)
  have hlt : c < (2 : Int) ^ (w - 5) := by
    norm_num at hp
    omega
  exact sexp_unbox_character_make w (by omega) c h0 hlt

/-- C16 as amended: on a word of at least twelve bits, for every string record
s, every index k with 0 <= k < sexp_string_length(s) that is in the fixnum
range, k < 2^(w-3), and every character code c with 0 <= c <= 127, after
`sexp_string_set` at `sexp_make_integer(k)` with `sexp_make_character(c)` the
read `sexp_string_ref` at `sexp_make_integer(k)` is `sexp_make_character(c)`,
the byte at index k is c, the byte at every other offset j, inside the buffer
or not, is unchanged, and the length field is unchanged; `char` may be signed
or not. -/
theorem string_set_then_ref (w : Nat) (hw : 12 ≤ w) (char_signed : Bool) (s : sexp_string)
    (k c : Int) (hk0 : 0 ≤ k) (_hk1 : k < (sexp_string_length s : Int))
    (hkf : k < (2 : Int) ^ (w - 3)) (hc0 : 0 ≤ c) (hc1 : c ≤ 127) :
    sexp_string_ref w
        (sexp_string_set w char_signed s (sexp_make_integer w k) (sexp_make_character w c))
        (sexp_make_integer w k) = sexp_make_character w c ∧
    sexp_string_data
        (sexp_string_set w char_signed s (sexp_make_integer w k) (sexp_make_character w c)) k
      = c ∧
    (∀ j : Int, j ≠ k →
      sexp_string_data
          (sexp_string_set w char_signed s (sexp_make_integer w k) (sexp_make_character w c)) j
        = sexp_string_data s j) ∧
    sexp_string_length
        (sexp_string_set w char_signed s (sexp_make_integer w k) (sexp_make_character w c))
      = sexp_string_length s := by
  have hpos : (0 : Int) < (2 : Int) ^ (w - 3) := by positivity
  have hidx : sexp_unbox_integer w (sexp_make_integer w k) = k :=
    sexp_unbox_integer_make w (by omega) k (by omega) hkf
  have hch := sexp_unbox_character_ascii w hw c hc0 hc1
  have hset : sexp_string_set w char_signed s (sexp_make_integer w k)
      (sexp_make_character w c) = { s with data := Function.update s.data k c } := by
    unfold sexp_string_set sexp_string_data
    rw [hidx, hch, to_char_ascii char_signed c hc0 hc1]
  rw [hset]
  refine ⟨?_, ?_, ?_, rfl⟩
  · unfold sexp_string_ref sexp_string_data
    rw [hidx]
    exact congrArg (sexp_make_character w) (Function.update_same k c s.data)
  · exact Function.update_same k c s.data
  · intro j hj
    exact Function.update_noteq hj c s.data

/-- Witness of the amended C16 on a 64-bit word: the byte at index 1 of the
string `abc` is set to 120, and the bytes at the indices 0 and 2 stay 97 and
99. -/
theorem string_set_then_ref_witness :
    12 ≤ 64 ∧
    sexp_string_ref 64
        (sexp_string_set 64 true string_abc (sexp_make_integer 64 1)
          (sexp_make_character 64 120))
        (sexp_make_integer 64 1) = sexp_make_character 64 120 ∧
    sexp_string_data
        (sexp_string_set 64 true string_abc (sexp_make_integer 64 1)
          (sexp_make_character 64 120)) 0 = 97 ∧
    sexp_string_data
        (sexp_string_set 64 true string_abc (sexp_make_integer 64 1)
          (sexp_make_character 64 120)) 2 = 99 ∧
    sexp_string_length
        (sexp_string_set 64 true string_abc (sexp_make_integer 64 1)
          (sexp_make_character 64 120)) = 3 :=
  have h := string_set_then_ref 64 (by decide) true string_abc 1 120 (by decide) (by decide)
    (by decide) (by decide) (by decide)
  ⟨by decide, h.1, (h.2.2.1 0 (by decide)).trans (by decide),
    (h.2.2.1 2 (by decide)).trans (by decide), h.2.2.2.trans (by decide)⟩

/-- Counterexample to C16 as stated, on a 32-bit word: in a string record of
2^30 + 1 zero bytes the index k = 2^30 is below the length, the word
`sexp_make_integer(2^30)` is 1 and unboxes to 0, and `sexp_string_set` with the
character 97 stores 97 at the index 0, another index of the buffer. -/
theorem string_set_index_beyond_fixnum :
    ¬ (∀ (w : Nat) (char_signed : Bool) (s : sexp_string) (k c : Int),
        12 ≤ w → 0 ≤ k → k < (sexp_string_length s : Int) → 0 ≤ c → c ≤ 127 →
        sexp_string_ref w
            (sexp_string_set w char_signed s (sexp_make_integer w k) (sexp_make_character w c))
            (sexp_make_integer w k) = sexp_make_character w c ∧
        (∀ j : Int, 0 ≤ j → j < (sexp_string_length s : Int) → j ≠ k →
          sexp_string_data
              (sexp_string_set w char_signed s (sexp_make_integer w k)
                (sexp_make_character w c)) j
            = sexp_string_data s j) ∧
        sexp_string_length
            (sexp_string_set w char_signed s (sexp_make_integer w k) (sexp_make_character w c))
          = sexp_string_length s) := by
  intro hall
  have h := (hall 32 true string_long 1073741824 97 (by decide) (by decide) (by decide)
    (by decide) (by decide)).2.1 0 (by decide) (by decide) (by decide)
  have h97 : sexp_string_data
      (sexp_string_set 32 true string_long (sexp_make_integer 32 1073741824)
        (sexp_make_character 32 97)) 0 = 97 := by decide
  rw [h97] at h
  exact absurd h (by decide)

end Sexp
